import Mathlib

/-!
# gocache: a verification development

A shallow embedding of the Go package `gocache` (files `cache.go`, `memorycache.go`,
`diskcache.go`, `splitcache.go`) together with theorems about it.

Modelling conventions.

* A Go `string` is a sequence of bytes: `GoString = List UInt8`.  A string literal of the
  source is written `lit "..."`, its UTF-8 encoding.
* A Go `[]byte` is a `List UInt8`; `len` is `List.length` seen as an integer.
* A Go `int` is modelled by `Int`.  The counters of this package are sums of lengths of
  byte slices that are held in memory, so the 64-bit wrap-around is out of reach and is
  not modelled.
* A Go `error` is an `Option GoError`, `none` being `nil`.
* A Go `map[string]V` is a finite association list without duplicate keys (`GoMap V`).
  The order of the list is the order in which a `range` loop happens to visit the map;
  every theorem holds for every order.
* The `sync.RWMutex` fields are not modelled: every operation is taken as one atomic step.
* A `Filler` is an object of the caller with a state of its own (type parameter `τ`); a call
  of `Fill` may change both the cache it is handed and that state.
* The interface `Cache` is a record of the three methods over a type of cache states.  A
  `SplitSize` holds the states of its children, so a call on a child gives a new list.
* Library calls with effects outside the package are parameters: `path.Join` (`join`), the
  file system calls (`FileSystem`, `FileOps`) and `compress/gzip` (`Gzip`).
-/

namespace Gocache

/-! ## Strings, errors, objects -/

/-- A Go string: a sequence of bytes. -/
abbrev GoString := List UInt8

/-- The bytes of a source-level string literal (its UTF-8 encoding). -/
def lit (s : String) : GoString := s.data.flatMap String.utf8EncodeChar

/-- Go's builtin `len` on a byte slice or a string. -/
def len (l : List UInt8) : Int := (l.length : Int)

namespace strings

/-- Go's `strings.HasSuffix`. -/
def HasSuffix (s suffix : GoString) : Bool := suffix.isSuffixOf s

/-- Go's `strings.HasPrefix`. -/
def HasPrefix (s pre : GoString) : Bool := pre.isPrefixOf s

/-- Go's `strings.Contains`, as a proposition. -/
def Contains (s substr : GoString) : Prop := substr <:+: s

instance (s substr : GoString) : Decidable (Contains s substr) :=
  inferInstanceAs (Decidable (substr <:+: s))

end strings

/-- A Go error value made by `errors.New`: it carries its message. -/
structure GoError where
  msg : GoString
deriving DecidableEq

namespace errors

/-- Go's `errors.New`. -/
def New (text : GoString) : GoError := ⟨text⟩

end errors

/-- The method `Error()` of an error value. -/
def GoError.Error (e : GoError) : GoString := e.msg

/-- The struct `Object` of cache.go.  `ModTime` stands for a `time.Time`. -/
structure Object where
  Data : List UInt8
  ModTime : Int
deriving DecidableEq

/-- The zero value `Object{}`. -/
def Object.zero : Object := ⟨[], 0⟩

/-! ## Go maps -/

/-- A Go `map[string]V`: an association list without duplicate keys. -/
structure GoMap (V : Type) where
  entries : List (GoString × V)
  nodup : (entries.map Prod.fst).Nodup

namespace GoMap

variable {V : Type}

/-- First value bound to `k` in an association list. -/
def lookupList (k : GoString) : List (GoString × V) → Option V
  | [] => none
  | e :: es => if e.1 = k then some e.2 else lookupList k es

/-- The entries whose key is not `k`. -/
def eraseList (k : GoString) (es : List (GoString × V)) : List (GoString × V) :=
  es.filter (fun e => decide (e.1 ≠ k))

/-- The expression `make(map[string]V)`: the empty map. -/
def make : GoMap V := ⟨[], List.nodup_nil⟩

/-- The lookup `v, ok := m[k]`: `some v` when `ok`, `none` otherwise. -/
def get? (m : GoMap V) (k : GoString) : Option V := lookupList k m.entries

/-- The builtin `delete(m, k)`. -/
def delete (m : GoMap V) (k : GoString) : GoMap V :=
  ⟨eraseList k m.entries, m.nodup.sublist ((List.filter_sublist m.entries).map Prod.fst)⟩

/-- The assignment `m[k] = v`. -/
def set (m : GoMap V) (k : GoString) (v : V) : GoMap V :=
  ⟨(k, v) :: eraseList k m.entries,
    List.nodup_cons.2
      ⟨fun h => by
          obtain ⟨e, he, hk⟩ := List.mem_map.1 h
          have hne := (List.mem_filter.1 he).2
          simp [hk] at hne,
        m.nodup.sublist ((List.filter_sublist m.entries).map Prod.fst)⟩⟩

end GoMap

/-! ## The Filler interface (cache.go) -/

/-- The interface `Filler`.  `σ` is the state of the cache handed to `Fill`, `τ` the state of
the filler object itself; `Fill` returns the `(Object, error)` pair and both new states. -/
structure Filler (σ τ : Type) where
  Fill : τ → σ → GoString → (Object × Option GoError) × σ × τ

/-! ## MemoryCache (memorycache.go) -/

/-- The struct `MemoryCache`, without its lock. -/
structure MemoryCache where
  memoryLimit : Int
  objectLimit : Int
  object : GoMap Object
  memoryUsage : Int

namespace MemoryCache

/-- The method `trim`: drops every entry and resets the usage counter. -/
def trim (m : MemoryCache) : MemoryCache :=
  { m with object := GoMap.make, memoryUsage := 0 }

/-- The method `Set`.  Returns the error (always `nil`) and the new state. -/
def Set (m : MemoryCache) (path : GoString) (item : Object) : Option GoError × MemoryCache :=
  let m1 : MemoryCache :=
    match m.object.get? path with
    | some oldItem => { m with memoryUsage := m.memoryUsage - len oldItem.Data }
    | none => m
  let m2 : MemoryCache :=
    if m1.objectLimit ≠ 0 ∧ len item.Data > m1.objectLimit then
      { m1 with object := m1.object.delete path }
    else
      let m3 : MemoryCache :=
        if m1.memoryUsage + len item.Data > m1.memoryLimit then m1.trim else m1
      { m3 with object := m3.object.set path item,
                memoryUsage := m3.memoryUsage + len item.Data }
  (none, m2)

/-- One round of the `range` loop of `Del`: the entry `e` is dropped when its key starts
with `pre`. -/
def delStep (pre : GoString) (m : MemoryCache) (e : GoString × Object) : MemoryCache :=
  if strings.HasPrefix e.1 pre then
    { m with memoryUsage := m.memoryUsage - len e.2.Data, object := m.object.delete e.1 }
  else m

/-- The method `Del`. -/
def Del (m : MemoryCache) (path : GoString) : MemoryCache :=
  if strings.HasSuffix path (lit "*") then
    if path = lit "*" then
      { m with object := GoMap.make, memoryUsage := 0 }
    else
      let pre := path.take (path.length - 1)
      m.object.entries.foldl (delStep pre) m
  else
    { m with memoryUsage := m.memoryUsage - len ((m.object.get? path).getD Object.zero).Data,
             object := m.object.delete path }

/-- The method `Get`.  `filler = none` is the nil filler; `w` is the state of the filler
object.  Returns the `(Object, error)` pair, the cache and the filler state. -/
def Get {τ : Type} (m : MemoryCache) (path : GoString)
    (filler : Option (Filler MemoryCache τ)) (w : τ) :
    (Object × Option GoError) × MemoryCache × τ :=
  match m.object.get? path with
  | none =>
    match filler with
    | some f => f.Fill w m path
    | none => ((Object.zero, some (errors.New (lit "Item not found"))), m, w)
  | some item => ((item, none), m, w)

end MemoryCache

/-- The constructor `NewMemoryCache`. -/
def NewMemoryCache (memoryLimit objectLimit : Int) : MemoryCache :=
  { memoryLimit := memoryLimit, objectLimit := objectLimit, object := GoMap.make,
    memoryUsage := 0 }

/-- The sum of `len(Data)` over the objects stored in a map. -/
def usageOf (m : GoMap Object) : Int := (m.entries.map (fun e => len e.2.Data)).sum

/-- One operation on a `MemoryCache`. -/
inductive MemOp where
  | set (path : GoString) (item : Object)
  | del (path : GoString)
  | trim

/-- The state after one operation. -/
def MemOp.apply (m : MemoryCache) : MemOp → MemoryCache
  | .set path item => (m.Set path item).2
  | .del path => m.Del path
  | .trim => m.trim

/-- The state after a sequence of operations, applied from left to right. -/
def runOps (m : MemoryCache) (ops : List MemOp) : MemoryCache := ops.foldl MemOp.apply m

/-- The tracked counter agrees with the stored payloads. -/
def UsageInv (m : MemoryCache) : Prop := m.memoryUsage = usageOf m.object

/-- The bound that an operation puts on its payload: a `Set` stores at most `limit` bytes. -/
def MemOp.withinBudget (limit : Int) : MemOp → Bool
  | .set _ item => decide (len item.Data ≤ limit)
  | .del _ => true
  | .trim => true

/-- The test of `Set` that runs the trim, on the state before the call: the usage, less the
entry that `path` holds, plus the new payload is over the limit. -/
def MemoryCache.trims (m : MemoryCache) (path : GoString) (item : Object) : Prop :=
  m.memoryUsage - len ((m.object.get? path).getD Object.zero).Data + len item.Data
    > m.memoryLimit

/-! ## DiskCache (diskcache.go) -/

/-- The result of `f.Stat()`: the fields of `os.FileInfo` that `Get` reads. -/
structure FileInfo where
  Size : Int
  ModTime : Int

/-- An open file, as `DiskCache.Get` uses it: what `f.Stat()` returns, and the bytes and
the error that `buf.ReadFrom(f)` returns. -/
structure OpenFile where
  Stat : Except GoError FileInfo
  ReadFrom : List UInt8 × Option GoError

/-- The file system as `DiskCache.Get` sees it: the outcome of `os.Open` on each path. -/
structure FileSystem where
  Open : GoString → Except GoError OpenFile

/-- The struct `DiskCache`, without its lock.  `fileList` is the existence index. -/
structure DiskCache where
  baseDir : GoString
  fileList : GoMap Int

/-- A disk cache together with the file system it lives on: the state that `Get` reads and
that a filler may change. -/
structure Disk where
  cache : DiskCache
  fs : FileSystem

namespace DiskCache

/-- The miss path of `Get`, written twice in the source: the filler if there is one,
else `Object{}` and `errors.New(filename)`. -/
def fillOnMiss {τ : Type} (d : Disk) (filename : GoString)
    (filler : Option (Filler Disk τ)) (w : τ) : (Object × Option GoError) × Disk × τ :=
  match filler with
  | some f => f.Fill w d filename
  | none => ((Object.zero, some (errors.New filename)), d, w)

/-- The method `Get`.  `join` is Go's `path.Join` on two elements, a library function taken
as a parameter. -/
def Get {τ : Type} (join : GoString → GoString → GoString) (d : Disk) (filename : GoString)
    (filler : Option (Filler Disk τ)) (w : τ) : (Object × Option GoError) × Disk × τ :=
  let cachePath := join d.cache.baseDir filename
  match d.cache.fileList.get? cachePath with
  | none => fillOnMiss d filename filler w
  | some _ =>
    match d.fs.Open cachePath with
    | .error _ => fillOnMiss d filename filler w
    | .ok f =>
      match f.Stat with
      | .error err => ((Object.zero, some err), d, w)
      | .ok fstat => ((⟨f.ReadFrom.1, fstat.ModTime⟩, f.ReadFrom.2), d, w)

end DiskCache

/-! ## Sorting (Go's package sort) -/

namespace sort

/-- The interface `sort.Interface` over a collection type `α`. -/
structure Interface (α : Type) where
  Len : α → Nat
  Less : α → Nat → Nat → Bool
  Swap : α → Nat → Nat → α

/-- The inner loop of the library's `insertionSort`:
`for j := i; j > a && data.Less(j, j-1); j-- { data.Swap(j, j-1) }`, started at `j`. -/
def insertionInner {α : Type} (I : Interface α) (a : Nat) : Nat → α → α
  | 0, data => data
  | j + 1, data =>
    if j + 1 > a ∧ I.Less data (j + 1) j = true then
      insertionInner I a j (I.Swap data (j + 1) j)
    else data

/-- The library's `insertionSort(data, a, b)`:
`for i := a + 1; i < b; i++ { inner loop }`. -/
def insertionSort {α : Type} (I : Interface α) (data : α) (a b : Nat) : α :=
  (List.range' (a + 1) (b - (a + 1))).foldl (fun d i => insertionInner I a i d) data

/-- Go's `sort.Sort` (the name `Sort` is reserved in Lean), modelled by the insertion sort
that the library runs on short slices (up to 12 elements in the current library).  On longer
slices the library runs another comparison sort, which calls the same three methods and
also ends with a permutation ordered by `Less`. -/
def GoSort {α : Type} (I : Interface α) (data : α) : α :=
  insertionSort I data 0 (I.Len data)

end sort

/-! ## SplitSize (splitcache.go) -/

/-- The struct `SplitSizeChild`; `C` is the type of the child cache. -/
structure SplitSizeChild (C : Type) where
  MaxSize : Int
  Cache : C
deriving DecidableEq

/-- The slice type `SplitSize`. -/
abbrev SplitSize (C : Type) := List (SplitSizeChild C)

namespace SplitSize

variable {C : Type}

/-- The body of `Less` on the two children `c[i]` and `c[j]`. -/
def lessChild (ci cj : SplitSizeChild C) : Bool :=
  if ci.MaxSize = 0 then false
  else if cj.MaxSize = 0 then true
  else decide (ci.MaxSize < cj.MaxSize)

/-- The method `Less`.  An index out of range, on which Go panics, gives `false`. -/
def Less (c : SplitSize C) (i j : Nat) : Bool :=
  match c.get? i, c.get? j with
  | some ci, some cj => lessChild ci cj
  | _, _ => false

/-- The method `Len`. -/
def Len (c : SplitSize C) : Nat := c.length

/-- The method `Swap`: `c[i], c[j] = c[j], c[i]`.  An index out of range, on which Go
panics, leaves the slice as it is. -/
def Swap (c : SplitSize C) (i j : Nat) : SplitSize C :=
  match c.get? i, c.get? j with
  | some ci, some cj => (c.set i cj).set j ci
  | _, _ => c

/-- The three methods that make `SplitSize` a `sort.Interface`. -/
def sortInterface : sort.Interface (SplitSize C) := ⟨Len, Less, Swap⟩

/-- The method `AddChildCache`. -/
def AddChildCache (c : SplitSize C) (maxSize : Int) (cache : C) : SplitSize C :=
  sort.GoSort sortInterface (c ++ [⟨maxSize, cache⟩])

end SplitSize

/-- The constructor `NewSplitSize`. -/
def NewSplitSize {C : Type} (children : List (SplitSizeChild C)) : SplitSize C :=
  sort.GoSort SplitSize.sortInterface children

/-! ## The Cache interface (cache.go) -/

/-- The interface `Cache` over a type `C` of cache states.  `Get` takes the filler (`none`
is nil) and the state of the filler object, of any type `τ`, and returns the
`(Object, error)` pair with both new states; `Set` returns the error and the new state. -/
structure Cache (C : Type) where
  Get : (τ : Type) → C → GoString → Option (Filler C τ) → τ → (Object × Option GoError) × C × τ
  Set : C → GoString → Object → Option GoError × C
  Del : C → GoString → C

/-- The type `*MemoryCache` implements `Cache`. -/
def MemoryCache.asCache : Cache MemoryCache :=
  ⟨fun _ m path filler w => m.Get path filler w, MemoryCache.Set, MemoryCache.Del⟩

/-! ## DiskCache: Set and Del (diskcache.go) -/

/-- Go's `path.Split`: the path up to and with its last slash, and the rest. -/
def pathSplit (p : GoString) : GoString × GoString :=
  let file := (p.reverse.takeWhile (fun b => decide (b ≠ 47))).reverse
  (p.take (p.length - file.length), file)

/-- The library calls of `Set` and `Del` that act on the file system, taken as parameters:
`filepath.Glob`, `os.RemoveAll` (its error is dropped by the source), `os.MkdirAll`,
`ioutil.WriteFile` and `os.Chtimes` (its error is dropped by the source). -/
structure FileOps where
  Glob : FileSystem → GoString → Except GoError (List GoString)
  RemoveAll : FileSystem → GoString → FileSystem
  MkdirAll : FileSystem → GoString → Option GoError × FileSystem
  WriteFile : FileSystem → GoString → List UInt8 → Option GoError × FileSystem
  Chtimes : FileSystem → GoString → Int → FileSystem

namespace DiskCache

/-- The method `Set`.  `fmt.Errorf` is modelled by the message it formats. -/
def Set (join : GoString → GoString → GoString) (os : FileOps) (d : Disk)
    (pathStr : GoString) (object : Object) : Option GoError × Disk :=
  let pathStr := join d.cache.baseDir pathStr
  let dirPath := (pathSplit pathStr).1
  match os.MkdirAll d.fs dirPath with
  | (some err, fs1) =>
    (some (errors.New (lit "Could not create directory " ++ dirPath ++ lit ": " ++ err.Error)),
      ⟨d.cache, fs1⟩)
  | (none, fs1) =>
    match os.WriteFile fs1 pathStr object.Data with
    | (some err, fs2) =>
      (some (errors.New (lit "Could not write file " ++ pathStr ++ lit ": " ++ err.Error)),
        ⟨d.cache, fs2⟩)
    | (none, fs2) =>
      (none, ⟨⟨d.cache.baseDir, d.cache.fileList.set pathStr (len object.Data)⟩,
        os.Chtimes fs2 pathStr object.ModTime⟩)

/-- One round of the loop of `Del` over the matches of the glob. -/
def delMatch (os : FileOps) (d : Disk) (m : GoString) : Disk :=
  ⟨⟨d.cache.baseDir, d.cache.fileList.delete m⟩, os.RemoveAll d.fs m⟩

/-- The method `Del`. -/
def Del (join : GoString → GoString → GoString) (os : FileOps) (d : Disk)
    (pathStr : GoString) : Disk :=
  let pathStr := join d.cache.baseDir pathStr
  match os.Glob d.fs pathStr with
  | .error _ => d
  | .ok ms =>
    let d1 : Disk :=
      if pathStr = lit "*" then ⟨⟨d.cache.baseDir, GoMap.make⟩, d.fs⟩ else d
    ms.foldl (delMatch os) d1

/-- The type `*DiskCache` implements `Cache`. -/
def asCache (join : GoString → GoString → GoString) (os : FileOps) : Cache Disk :=
  ⟨fun _ d path filler w => DiskCache.Get join d path filler w, DiskCache.Set join os,
    DiskCache.Del join os⟩

end DiskCache

/-! ## SplitSize: Get, Set and Del (splitcache.go) -/

namespace SplitSize

variable {C : Type}

/-- The loop of `Get`, started with the current values `acc` of the results `o, err`: each
child is asked with a nil filler, and the loop ends at the first child that returns a nil
error.  Returns the values of `o, err` at the end and the children. -/
def probe (ops : Cache C) (path : GoString) :
    SplitSize C → Object × Option GoError → (Object × Option GoError) × SplitSize C
  | [], acc => (acc, [])
  | child :: rest, _ =>
    let r := ops.Get Unit child.Cache path none ()
    match r.1.2 with
    | none => (r.1, ⟨child.MaxSize, r.2.1⟩ :: rest)
    | some _ =>
      let q := probe ops path rest r.1
      (q.1, ⟨child.MaxSize, r.2.1⟩ :: q.2)

/-- The method `Get`.  The results `o, err` start as `Object{}` and nil.  A `return` inside
the loop happens with `err == nil`, for which the test after the loop fails as well, so
both ways out of the loop meet in the last `match`. -/
def Get {τ : Type} (ops : Cache C) (c : SplitSize C) (path : GoString)
    (filler : Option (Filler (SplitSize C) τ)) (w : τ) :
    (Object × Option GoError) × SplitSize C × τ :=
  let r := probe ops path c (Object.zero, none)
  match r.1.2, filler with
  | some _, some f => f.Fill w r.2 path
  | _, _ => (r.1, r.2, w)

/-- The method `Set`. -/
def Set (ops : Cache C) : SplitSize C → GoString → Object → Option GoError × SplitSize C
  | [], _, _ => (none, [])
  | child :: rest, path, object =>
    if len object.Data ≤ child.MaxSize ∨ child.MaxSize = 0 then
      ((ops.Set child.Cache path object).1,
        ⟨child.MaxSize, (ops.Set child.Cache path object).2⟩ :: rest)
    else
      ((Set ops rest path object).1, child :: (Set ops rest path object).2)

/-- The method `Del`. -/
def Del (ops : Cache C) (c : SplitSize C) (path : GoString) : SplitSize C :=
  c.map (fun child => ⟨child.MaxSize, ops.Del child.Cache path⟩)

end SplitSize

/-! ## CompressAndSet (cache.go) -/

/-- The calls into `compress/gzip`, taken as parameters: the error of
`gzip.NewWriterLevel(gzBuf, gzip.BestCompression)`, and for `compressor.Write(data)` followed
by `compressor.Close()` the bytes that `gzBuf` holds afterwards and the error of `Write`. -/
structure Gzip where
  NewWriterLevel : Option GoError
  Write : List UInt8 → List UInt8 × Option GoError

/-- The function `CompressAndSet`.  Returns `(uncompressed, compressed, err)` and the
cache. -/
def CompressAndSet {C : Type} (ops : Cache C) (gz : Gzip) (cache : C) (path : GoString)
    (data : List UInt8) (modTime : Int) : (Object × Object × Option GoError) × C :=
  let compressedPath : GoString :=
    if strings.HasSuffix path (lit ".gz") then path else path ++ lit ".gz"
  let uncompressedPath : GoString :=
    if strings.HasSuffix path (lit ".gz") then path.take (path.length - 3) else path
  match gz.NewWriterLevel with
  | some err => ((Object.zero, Object.zero, some err), cache)
  | none =>
    match (gz.Write data).2 with
    | some err => ((Object.zero, Object.zero, some err), cache)
    | none =>
      let compressedItem : Object := ⟨(gz.Write data).1, modTime⟩
      match (ops.Set cache compressedPath compressedItem).1 with
      | some err =>
        ((Object.zero, Object.zero, some err), (ops.Set cache compressedPath compressedItem).2)
      | none =>
        let uncompressedItem : Object := ⟨data, modTime⟩
        ((uncompressedItem, compressedItem,
            (ops.Set (ops.Set cache compressedPath compressedItem).2 uncompressedPath
              uncompressedItem).1),
          (ops.Set (ops.Set cache compressedPath compressedItem).2 uncompressedPath
            uncompressedItem).2)

/-! ## Auxiliary definitions -/

/-- A filler that counts its calls, stores a one-byte object under the key it is asked for
and returns it. -/
def countingFiller : Filler MemoryCache Nat :=
  ⟨fun w m key => ((⟨[7], 0⟩, none), (m.Set key ⟨[7], 0⟩).2, w + 1)⟩

/-- A file system on which every `os.Open` fails. -/
def emptyFileSystem : FileSystem := ⟨fun _ => .error (errors.New (lit "no such file"))⟩

/-- A stand-in for `path.Join` on two plain elements: the two joined by a slash. -/
def slashJoin (a b : GoString) : GoString := a ++ lit "/" ++ b

/-- One run of the inner loop of the insertion sort, on lists: `x` sinks into `acc`, the
part of the slice before it read from right to left, past the children it is `Less` than. -/
def SplitSize.sinkInto {C : Type} (x : SplitSizeChild C) :
    List (SplitSizeChild C) → List (SplitSizeChild C)
  | [] => [x]
  | p :: ps => if SplitSize.lessChild x p = true then p :: SplitSize.sinkInto x ps
               else x :: p :: ps

/-- The ordering that `Less` induces on a slice read from right to left. -/
def SplitSize.Descending {C : Type} (acc : List (SplitSizeChild C)) : Prop :=
  acc.Pairwise (fun a b => ¬ SplitSize.lessChild a b = true)

/-- Two tiers over memory caches: `A` for objects of up to 10 bytes, `B` unbounded. -/
def tiersAB : SplitSize MemoryCache :=
  NewSplitSize [⟨0, NewMemoryCache 100 0⟩, ⟨10, NewMemoryCache 100 0⟩]

/-- An object of `n` zero bytes. -/
def zeroBytes (n : Nat) : Object := ⟨List.replicate n 0, 0⟩

/-- The tiers of `tiersAB` at a moment when `A` holds an object of 8 bytes under "k". -/
def tiersStale : SplitSize MemoryCache :=
  NewSplitSize [⟨0, NewMemoryCache 100 0⟩,
    ⟨10, ((NewMemoryCache 100 0).Set (lit "k") (zeroBytes 8)).2⟩]

/-- A filler for a composite that counts its calls and returns a one-byte object. -/
def splitCountingFiller : Filler (SplitSize MemoryCache) Nat :=
  ⟨fun w c _ => ((⟨[7], 0⟩, none), c, w + 1)⟩

/-- A file system on which every path opens as a file of three bytes. -/
def fullFileSystem : FileSystem :=
  ⟨fun _ => .ok ⟨.ok ⟨3, 0⟩, ([1, 2, 3], none)⟩⟩

/-- File operations for a directory "cache" whose one entry is the directory "cache/sub":
the glob "cache/*" matches "cache/sub", every other glob matches nothing, and the other
calls succeed. -/
def subdirFileOps : FileOps where
  Glob := fun _ pattern => if pattern = lit "cache/*" then .ok [lit "cache/sub"] else .ok []
  RemoveAll := fun fs _ => fs
  MkdirAll := fun fs _ => (none, fs)
  WriteFile := fun fs _ _ => (none, fs)
  Chtimes := fun fs _ _ => fs

/-- A disk cache under "cache" whose index holds the nested file "cache/sub/file". -/
def nestedDisk : Disk :=
  ⟨⟨lit "cache", GoMap.make.set (lit "cache/sub/file") 3⟩, emptyFileSystem⟩

/-- File operations on which `ioutil.WriteFile` fails for every path that ends in ".gz" (as
when a directory of that name is in the way) and every other call succeeds. -/
def gzBlockedFileOps : FileOps where
  Glob := fun _ _ => .ok []
  RemoveAll := fun fs _ => fs
  MkdirAll := fun fs _ => (none, fs)
  WriteFile := fun fs p _ =>
    if strings.HasSuffix p (lit ".gz") then (some (errors.New (lit "is a directory")), fs)
    else (none, fs)
  Chtimes := fun fs _ _ => fs

/-- An empty disk cache under "cache". -/
def emptyDisk : Disk := ⟨⟨lit "cache", GoMap.make⟩, emptyFileSystem⟩

/-- A stand-in for gzip that does not fail and puts two bytes in front of the data. -/
def headerGzip : Gzip := ⟨none, fun data => (31 :: 139 :: data, none)⟩

/-! ## Sanity checks of the embedding -/

example : (runOps (NewMemoryCache 10 0)
    [.set (lit "a") ⟨[1, 2, 3], 0⟩, .set (lit "b") ⟨[1, 2, 3, 4], 0⟩]).memoryUsage = 7 := by
  decide

example : (runOps (NewMemoryCache 10 0)
    [.set (lit "a") ⟨[1, 2, 3], 0⟩, .set (lit "b") ⟨[1, 2, 3, 4], 0⟩,
     .set (lit "c") ⟨[1, 2, 3, 4], 0⟩]).memoryUsage = 4 := by
  decide

example : (runOps (NewMemoryCache 10 0)
    [.set (lit "a") ⟨[1, 2, 3], 0⟩, .set (lit "ab") ⟨[1, 2, 3, 4], 0⟩,
     .set (lit "c") ⟨[1, 2], 0⟩, .del (lit "a*")]).object.entries = [(lit "c", ⟨[1, 2], 0⟩)] := by
  decide

example : (NewSplitSize [⟨0, 1⟩, ⟨10, 2⟩, ⟨-3, 3⟩, ⟨0, 4⟩, ⟨5, 5⟩, ⟨10, 6⟩]).map
    (fun c : SplitSizeChild Nat => (c.MaxSize, c.Cache))
    = [(-3, 3), (5, 5), (10, 2), (10, 6), (0, 1), (0, 4)] := by
  decide

/-! ## Lemmas on Go maps -/

theorem len_nonneg (l : List UInt8) : 0 ≤ len l := by
  unfold len; exact Int.ofNat_nonneg _

theorem lit_star : lit "*" = [42] := by decide

namespace GoMap

variable {V : Type}

theorem lookupList_eraseList (k k' : GoString) (es : List (GoString × V)) :
    lookupList k' (eraseList k es) = if k' = k then none else lookupList k' es := by
  induction es with
  | nil => simp [eraseList, lookupList]
  | cons e es ih =>
    unfold eraseList at ih ⊢
    by_cases hek : e.1 = k
    · rw [List.filter_cons_of_neg (by simp [hek]), ih]
      by_cases hk : k' = k
      · simp [hk]
      · have : ¬ e.1 = k' := fun h => hk (h.symm.trans hek)
        simp [hk, lookupList, this]
    · rw [List.filter_cons_of_pos (by simp [hek])]
      by_cases hk : k' = k
      · subst hk
        simp only [lookupList, if_neg hek, ih, if_true]
      · simp only [lookupList, ih, if_neg hk]

theorem lookupList_eq_none_iff (k : GoString) (es : List (GoString × V)) :
    lookupList k es = none ↔ k ∉ es.map Prod.fst := by
  induction es with
  | nil => simp [lookupList]
  | cons e es ih =>
    by_cases hek : e.1 = k
    · simp [lookupList, hek]
    · have : ¬ k = e.1 := fun h => hek h.symm
      simp [lookupList, hek, ih, this]

theorem lookupList_of_mem (es : List (GoString × V)) (h : (es.map Prod.fst).Nodup)
    (e : GoString × V) (he : e ∈ es) : lookupList e.1 es = some e.2 := by
  induction es with
  | nil => simp at he
  | cons x xs ih =>
    simp only [List.map_cons, List.nodup_cons] at h
    rcases List.mem_cons.1 he with rfl | hin
    · simp [lookupList]
    · have hne : ¬ x.1 = e.1 := fun hx => h.1 (hx ▸ List.mem_map_of_mem Prod.fst hin)
      simp only [lookupList, if_neg hne]
      exact ih h.2 hin

theorem eraseList_of_lookupList_none (k : GoString) (es : List (GoString × V))
    (h : lookupList k es = none) : eraseList k es = es := by
  rw [lookupList_eq_none_iff] at h
  unfold eraseList
  rw [List.filter_eq_self]
  intro e he
  have : e.1 ≠ k := fun hk => h (hk ▸ List.mem_map_of_mem Prod.fst he)
  simp [this]

theorem get?_make (k : GoString) : (make : GoMap V).get? k = none := rfl

theorem get?_delete (m : GoMap V) (k k' : GoString) :
    (m.delete k).get? k' = if k' = k then none else m.get? k' :=
  lookupList_eraseList k k' m.entries

theorem get?_set (m : GoMap V) (k k' : GoString) (v : V) :
    (m.set k v).get? k' = if k' = k then some v else m.get? k' := by
  show lookupList k' ((k, v) :: eraseList k m.entries) = _
  by_cases hk : k' = k
  · simp [lookupList, hk]
  · have : ¬ k = k' := fun h => hk h.symm
    simp only [lookupList, if_neg this, if_neg hk, lookupList_eraseList]
    rfl

theorem get?_of_mem (m : GoMap V) (e : GoString × V) (he : e ∈ m.entries) :
    m.get? e.1 = some e.2 :=
  lookupList_of_mem m.entries m.nodup e he

theorem delete_of_get?_none (m : GoMap V) (k : GoString) (h : m.get? k = none) :
    m.delete k = m := by
  cases m with
  | mk es nd =>
    have : eraseList k es = es := eraseList_of_lookupList_none k es h
    simp only [delete]
    congr

end GoMap

/-! ## The usage counter -/

theorem sum_eraseList (k : GoString) (es : List (GoString × Object))
    (h : (es.map Prod.fst).Nodup) :
    ((GoMap.eraseList k es).map (fun e => len e.2.Data)).sum
      = (es.map (fun e => len e.2.Data)).sum
        - len ((GoMap.lookupList k es).getD Object.zero).Data := by
  induction es with
  | nil => simp [GoMap.eraseList, GoMap.lookupList, Object.zero, len]
  | cons e es ih =>
    simp only [List.map_cons, List.nodup_cons] at h
    by_cases hek : e.1 = k
    · have hnone : GoMap.lookupList k es = none :=
        (GoMap.lookupList_eq_none_iff k es).2 (hek ▸ h.1)
      have herase := GoMap.eraseList_of_lookupList_none k es hnone
      have hstep : GoMap.eraseList k (e :: es) = GoMap.eraseList k es := by
        unfold GoMap.eraseList
        exact List.filter_cons_of_neg (by simp [hek])
      rw [hstep, herase]
      simp [GoMap.lookupList, hek]
    · have hstep : GoMap.eraseList k (e :: es) = e :: GoMap.eraseList k es := by
        unfold GoMap.eraseList
        exact List.filter_cons_of_pos (by simp [hek])
      rw [hstep]
      simp only [List.map_cons, List.sum_cons, GoMap.lookupList, if_neg hek, ih h.2]
      ring

theorem usageOf_make : usageOf GoMap.make = 0 := rfl

theorem usageOf_delete (m : GoMap Object) (k : GoString) :
    usageOf (m.delete k) = usageOf m - len ((m.get? k).getD Object.zero).Data :=
  sum_eraseList k m.entries m.nodup

theorem usageOf_set (m : GoMap Object) (k : GoString) (v : Object) :
    usageOf (m.set k v)
      = usageOf m - len ((m.get? k).getD Object.zero).Data + len v.Data := by
  show (List.map (fun e => len e.2.Data) ((k, v) :: GoMap.eraseList k m.entries)).sum = _
  simp only [List.map_cons, List.sum_cons]
  have := sum_eraseList k m.entries m.nodup
  unfold usageOf GoMap.get?
  omega

theorem UsageInv_new (memoryLimit objectLimit : Int) :
    UsageInv (NewMemoryCache memoryLimit objectLimit) := by
  simp [UsageInv, NewMemoryCache, usageOf_make]

theorem UsageInv_trim (m : MemoryCache) : UsageInv m.trim := by
  simp [UsageInv, MemoryCache.trim, usageOf_make]

theorem UsageInv_Set (m : MemoryCache) (path : GoString) (item : Object) (h : UsageInv m) :
    UsageInv (m.Set path item).2 := by
  unfold UsageInv at h ⊢
  unfold MemoryCache.Set
  cases hget : m.object.get? path with
  | none =>
    simp only []
    split_ifs with h1 h2
    · simp [usageOf_delete, hget, Object.zero, len, h]
    · simp [MemoryCache.trim, usageOf_set, usageOf_make, GoMap.get?_make, Object.zero, len]
    · simp [usageOf_set, hget, Object.zero, len, h]
  | some old =>
    simp only []
    split_ifs with h1 h2
    · simp [usageOf_delete, hget, h]
    · simp [MemoryCache.trim, usageOf_set, usageOf_make, GoMap.get?_make, Object.zero, len]
    · simp [usageOf_set, hget, h]

theorem UsageInv_foldl_delStep (pre : GoString) (es : List (GoString × Object)) :
    ∀ m : MemoryCache, (es.map Prod.fst).Nodup →
      (∀ e ∈ es, m.object.get? e.1 = some e.2) → UsageInv m →
      UsageInv (es.foldl (MemoryCache.delStep pre) m) := by
  induction es with
  | nil => intro m _ _ h; exact h
  | cons e es ih =>
    intro m hnd hall h
    simp only [List.map_cons, List.nodup_cons] at hnd
    simp only [List.foldl_cons]
    apply ih _ hnd.2
    · intro x hx
      have hmx := hall x (List.mem_cons_of_mem _ hx)
      unfold MemoryCache.delStep
      split_ifs
      · have hne : x.1 ≠ e.1 := fun hxe => hnd.1 (hxe ▸ List.mem_map_of_mem Prod.fst hx)
        simp only [GoMap.get?_delete, if_neg hne, hmx]
      · exact hmx
    · unfold MemoryCache.delStep
      split_ifs
      · have hme := hall e (List.mem_cons_self _ _)
        unfold UsageInv at h ⊢
        simp [usageOf_delete, hme, h]
      · exact h

theorem UsageInv_Del (m : MemoryCache) (path : GoString) (h : UsageInv m) :
    UsageInv (m.Del path) := by
  unfold MemoryCache.Del
  split_ifs with h1 h2
  · simp [UsageInv, usageOf_make]
  · exact UsageInv_foldl_delStep _ _ m m.object.nodup
      (fun e he => GoMap.get?_of_mem m.object e he) h
  · unfold UsageInv at h ⊢
    simp [usageOf_delete, h]

theorem UsageInv_apply (m : MemoryCache) (op : MemOp) (h : UsageInv m) :
    UsageInv (op.apply m) := by
  cases op with
  | set path item => exact UsageInv_Set m path item h
  | del path => exact UsageInv_Del m path h
  | trim => exact UsageInv_trim m

theorem UsageInv_runOps (ops : List MemOp) :
    ∀ m : MemoryCache, UsageInv m → UsageInv (runOps m ops) := by
  induction ops with
  | nil => intro m h; exact h
  | cons op ops ih => intro m h; exact ih _ (UsageInv_apply m op h)

/-! ## Lemmas on `Set`, `Del` and `Get` -/

theorem Set_fst (m : MemoryCache) (path : GoString) (item : Object) :
    (m.Set path item).1 = none := rfl

theorem Set_memoryLimit (m : MemoryCache) (path : GoString) (item : Object) :
    (m.Set path item).2.memoryLimit = m.memoryLimit := by
  unfold MemoryCache.Set
  cases m.object.get? path <;> simp only [] <;> split_ifs <;> rfl

/-- What `Set` does with an object over the per-object ceiling. -/
theorem Set_oversized (m : MemoryCache) (path : GoString) (item : Object)
    (h : m.objectLimit ≠ 0 ∧ len item.Data > m.objectLimit) :
    (m.Set path item).2.object = m.object.delete path := by
  unfold MemoryCache.Set
  cases m.object.get? path <;> simp only [] <;> rw [if_pos h]

/-- What `Set` does with an object within the per-object ceiling, when the trim runs. -/
theorem Set_trimmed (m : MemoryCache) (path : GoString) (item : Object)
    (h : ¬ (m.objectLimit ≠ 0 ∧ len item.Data > m.objectLimit))
    (ht : m.memoryUsage - len ((m.object.get? path).getD Object.zero).Data + len item.Data
            > m.memoryLimit) :
    (m.Set path item).2.object = GoMap.make.set path item
      ∧ (m.Set path item).2.memoryUsage = len item.Data := by
  unfold MemoryCache.Set
  cases hget : m.object.get? path with
  | none =>
    rw [hget] at ht
    simp only [Option.getD_none, Object.zero, len, List.length_nil, Int.ofNat_zero,
      sub_zero] at ht
    simp only []
    rw [if_neg h, if_pos (by simpa [len] using ht)]
    simp [MemoryCache.trim]
  | some old =>
    rw [hget] at ht
    simp only [Option.getD_some] at ht
    simp only []
    rw [if_neg h, if_pos ht]
    simp [MemoryCache.trim]

/-- What `Set` does with an object within the per-object ceiling, when no trim runs. -/
theorem Set_stored (m : MemoryCache) (path : GoString) (item : Object)
    (h : ¬ (m.objectLimit ≠ 0 ∧ len item.Data > m.objectLimit))
    (ht : ¬ m.memoryUsage - len ((m.object.get? path).getD Object.zero).Data + len item.Data
            > m.memoryLimit) :
    (m.Set path item).2.object = m.object.set path item
      ∧ (m.Set path item).2.memoryUsage
          = m.memoryUsage - len ((m.object.get? path).getD Object.zero).Data
            + len item.Data := by
  unfold MemoryCache.Set
  cases hget : m.object.get? path with
  | none =>
    rw [hget] at ht
    simp only [Option.getD_none, Object.zero, len, List.length_nil, Int.ofNat_zero,
      sub_zero] at ht
    simp only []
    rw [if_neg h, if_neg (by simpa [len] using ht)]
    simp [Object.zero, len]
  | some old =>
    rw [hget] at ht
    simp only [Option.getD_some] at ht
    simp only []
    rw [if_neg h, if_neg ht]
    simp

/-- After a `Set` of an object within the per-object ceiling the key holds the object. -/
theorem Set_get?_self (m : MemoryCache) (path : GoString) (item : Object)
    (h : ¬ (m.objectLimit ≠ 0 ∧ len item.Data > m.objectLimit)) :
    (m.Set path item).2.object.get? path = some item := by
  by_cases ht : m.memoryUsage - len ((m.object.get? path).getD Object.zero).Data
      + len item.Data > m.memoryLimit
  · rw [(Set_trimmed m path item h ht).1, GoMap.get?_set, if_pos rfl]
  · rw [(Set_stored m path item h ht).1, GoMap.get?_set, if_pos rfl]

theorem Get_nil_of_some {τ : Type} (m : MemoryCache) (path : GoString) (item : Object) (w : τ)
    (h : m.object.get? path = some item) :
    m.Get path none w = ((item, none), m, w) := by
  unfold MemoryCache.Get
  rw [h]

theorem Get_nil_of_none {τ : Type} (m : MemoryCache) (path : GoString) (w : τ)
    (h : m.object.get? path = none) :
    m.Get path none w
      = ((Object.zero, some (errors.New (lit "Item not found"))), m, w) := by
  unfold MemoryCache.Get
  rw [h]

theorem foldl_delStep_limits (pre : GoString) (es : List (GoString × Object)) :
    ∀ m : MemoryCache,
      (es.foldl (MemoryCache.delStep pre) m).memoryLimit = m.memoryLimit
      ∧ (es.foldl (MemoryCache.delStep pre) m).objectLimit = m.objectLimit
      ∧ (es.foldl (MemoryCache.delStep pre) m).memoryUsage ≤ m.memoryUsage := by
  induction es with
  | nil => intro m; simp
  | cons e es ih =>
    intro m
    simp only [List.foldl_cons]
    obtain ⟨h1, h2, h3⟩ := ih (MemoryCache.delStep pre m e)
    rw [h1, h2]
    unfold MemoryCache.delStep at h3 ⊢
    split_ifs at h3 ⊢
    · have := len_nonneg e.2.Data
      simp only [] at h3 ⊢
      exact ⟨trivial, trivial, by omega⟩
    · exact ⟨rfl, rfl, h3⟩

theorem foldl_delStep_get? (pre k : GoString) (es : List (GoString × Object)) :
    ∀ m : MemoryCache,
      (es.foldl (MemoryCache.delStep pre) m).object.get? k
        = if k ∈ es.map Prod.fst ∧ pre <+: k then none else m.object.get? k := by
  induction es with
  | nil => intro m; simp
  | cons e es ih =>
    intro m
    simp only [List.foldl_cons, ih, List.map_cons, List.mem_cons]
    by_cases hk : k ∈ es.map Prod.fst ∧ pre <+: k
    · rw [if_pos hk, if_pos ⟨Or.inr hk.1, hk.2⟩]
    · rw [if_neg hk]
      unfold MemoryCache.delStep strings.HasPrefix
      by_cases hp : pre.isPrefixOf e.1 = true
      · rw [if_pos hp]
        simp only [GoMap.get?_delete]
        by_cases hke : k = e.1
        · subst hke
          rw [if_pos rfl, if_pos ⟨Or.inl rfl, List.isPrefixOf_iff_prefix.1 hp⟩]
        · rw [if_neg hke, if_neg]
          rintro ⟨h1 | h1, h2⟩
          · exact hke h1
          · exact hk ⟨h1, h2⟩
      · rw [if_neg hp, if_neg]
        rintro ⟨h1 | h1, h2⟩
        · subst h1
          exact hp (List.isPrefixOf_iff_prefix.2 h2)
        · exact hk ⟨h1, h2⟩

theorem Del_star (m : MemoryCache) :
    m.Del (lit "*") = { m with object := GoMap.make, memoryUsage := 0 } := by
  unfold MemoryCache.Del
  rw [if_pos (by decide), if_pos rfl]

/-- The wildcard form of `Del`, key by key. -/
theorem Del_wildcard_get? (m : MemoryCache) (p k : GoString) :
    (m.Del (p ++ lit "*")).object.get? k = if p <+: k then none else m.object.get? k := by
  by_cases hp : p = []
  · subst hp
    rw [List.nil_append, Del_star]
    simp [GoMap.get?_make]
  · have hsuf : strings.HasSuffix (p ++ lit "*") (lit "*") = true := by
      unfold strings.HasSuffix
      rw [List.isSuffixOf_iff_suffix]
      exact List.suffix_append p (lit "*")
    have hne : p ++ lit "*" ≠ lit "*" := by
      intro h
      have := congrArg List.length h
      rw [lit_star] at this
      simp at this
      exact hp this
    have htake : (p ++ lit "*").take ((p ++ lit "*").length - 1) = p := by
      rw [lit_star]; simp
    unfold MemoryCache.Del
    rw [if_pos hsuf, if_neg hne]
    simp only [htake, foldl_delStep_get?]
    by_cases hpk : p <+: k
    · rw [if_pos hpk]
      by_cases hmem : k ∈ m.object.entries.map Prod.fst
      · rw [if_pos ⟨hmem, hpk⟩]
      · rw [if_neg (fun h => hmem h.1)]
        exact (GoMap.lookupList_eq_none_iff k m.object.entries).2 hmem
    · rw [if_neg hpk, if_neg (fun h => hpk h.2)]

/-- The exact form of `Del`. -/
theorem Del_exact_eq (m : MemoryCache) (path : GoString)
    (h : strings.HasSuffix path (lit "*") = false) :
    m.Del path
      = { m with memoryUsage :=
                   m.memoryUsage - len ((m.object.get? path).getD Object.zero).Data,
                 object := m.object.delete path } := by
  unfold MemoryCache.Del
  rw [if_neg (by simp [h])]

theorem Del_memoryLimit (m : MemoryCache) (path : GoString) :
    (m.Del path).memoryLimit = m.memoryLimit := by
  unfold MemoryCache.Del
  split_ifs
  · rfl
  · exact (foldl_delStep_limits _ _ m).1
  · rfl

theorem Del_memoryUsage_le (m : MemoryCache) (path : GoString) (limit : Int)
    (hl : 0 ≤ limit) (h : m.memoryUsage ≤ limit) : (m.Del path).memoryUsage ≤ limit := by
  unfold MemoryCache.Del
  split_ifs
  · exact hl
  · exact le_trans (foldl_delStep_limits _ _ m).2.2 h
  · have := len_nonneg ((m.object.get? path).getD Object.zero).Data
    simp only []
    omega

theorem Set_memoryUsage_le (m : MemoryCache) (path : GoString) (item : Object)
    (h : m.memoryUsage ≤ m.memoryLimit) (hi : len item.Data ≤ m.memoryLimit) :
    (m.Set path item).2.memoryUsage ≤ m.memoryLimit := by
  unfold MemoryCache.Set
  cases m.object.get? path with
  | none =>
    simp only []
    split_ifs with h1 h2
    · exact h
    · simpa [MemoryCache.trim] using hi
    · simp only []; omega
  | some old =>
    have := len_nonneg old.Data
    simp only []
    split_ifs with h1 h2
    · simp only []; omega
    · simpa [MemoryCache.trim] using hi
    · simp only []; omega

theorem budget_apply (m : MemoryCache) (op : MemOp) (h0 : 0 ≤ m.memoryLimit)
    (h : m.memoryUsage ≤ m.memoryLimit) (hop : op.withinBudget m.memoryLimit = true) :
    (op.apply m).memoryLimit = m.memoryLimit
      ∧ (op.apply m).memoryUsage ≤ m.memoryLimit := by
  cases op with
  | set path item =>
    exact ⟨Set_memoryLimit m path item,
      Set_memoryUsage_le m path item h (by simpa [MemOp.withinBudget] using hop)⟩
  | del path => exact ⟨Del_memoryLimit m path, Del_memoryUsage_le m path _ h0 h⟩
  | trim => exact ⟨rfl, h0⟩

theorem budget_runOps (limit : Int) (hl : 0 ≤ limit) (ops : List MemOp) :
    ∀ m : MemoryCache, m.memoryLimit = limit → m.memoryUsage ≤ limit →
      (∀ op ∈ ops, op.withinBudget limit = true) →
      (runOps m ops).memoryUsage ≤ limit := by
  induction ops with
  | nil => intro m _ h _; exact h
  | cons op ops ih =>
    intro m hm h hops
    subst hm
    obtain ⟨h1, h2⟩ := budget_apply m op hl h (hops op (List.mem_cons_self _ _))
    exact ih (op.apply m) h1 h2 (fun o ho => hops o (List.mem_cons_of_mem _ ho))

/-! ## Lemmas on the sort of `SplitSize` -/

theorem get?_append_at {α : Type} (l : List α) (a : α) (r : List α) :
    (l ++ a :: r).get? l.length = some a := by
  induction l with
  | nil => rfl
  | cons x xs ih => simpa using ih

theorem get?_append_succ {α : Type} (l : List α) (a b : α) (r : List α) :
    (l ++ a :: b :: r).get? (l.length + 1) = some b := by
  induction l with
  | nil => rfl
  | cons x xs ih => simpa using ih

theorem set_set_append {α : Type} (l : List α) (a b : α) (r : List α) :
    ((l ++ a :: b :: r).set (l.length + 1) a).set l.length b = l ++ b :: a :: r := by
  induction l with
  | nil => rfl
  | cons x xs ih => simp [ih]

namespace SplitSize

variable {C : Type}

theorem lessChild_iff (a b : SplitSizeChild C) :
    lessChild a b = true ↔ a.MaxSize ≠ 0 ∧ (b.MaxSize = 0 ∨ a.MaxSize < b.MaxSize) := by
  unfold lessChild
  by_cases ha : a.MaxSize = 0
  · simp [ha]
  · by_cases hb : b.MaxSize = 0
    · simp [ha, hb]
    · simp [ha, hb]

/-- The comparison `Less` is asymmetric. -/
theorem lessChild_asymm (a b : SplitSizeChild C) (h : lessChild a b = true) :
    ¬ lessChild b a = true := by
  rw [lessChild_iff] at h ⊢
  omega

/-- The comparison `Less` is negatively transitive. -/
theorem lessChild_neg_trans (a b c : SplitSizeChild C) (hab : ¬ lessChild a b = true)
    (hbc : ¬ lessChild b c = true) : ¬ lessChild a c = true := by
  rw [lessChild_iff] at hab hbc ⊢
  omega

theorem Less_adjacent (l : List (SplitSizeChild C)) (p x : SplitSizeChild C)
    (r : List (SplitSizeChild C)) :
    Less (l ++ p :: x :: r) (l.length + 1) l.length = lessChild x p := by
  unfold Less
  rw [get?_append_succ, get?_append_at]

theorem Swap_adjacent (l : List (SplitSizeChild C)) (p x : SplitSizeChild C)
    (r : List (SplitSizeChild C)) :
    Swap (l ++ p :: x :: r) (l.length + 1) l.length = l ++ x :: p :: r := by
  unfold Swap
  rw [get?_append_succ, get?_append_at]
  exact set_set_append l p x r

/-- The inner loop of the insertion sort, run on a slice, is `sinkInto` on lists. -/
theorem insertionInner_eq (x : SplitSizeChild C) (acc : List (SplitSizeChild C)) :
    ∀ rest : List (SplitSizeChild C),
      sort.insertionInner sortInterface 0 acc.length (acc.reverse ++ x :: rest)
        = (sinkInto x acc).reverse ++ rest := by
  induction acc with
  | nil => intro rest; rfl
  | cons p ps ih =>
    intro rest
    have hlen : (p :: ps).length = ps.reverse.length + 1 := by simp
    have hdata : (p :: ps).reverse ++ x :: rest = ps.reverse ++ p :: x :: rest := by simp
    rw [hlen, hdata]
    unfold sort.insertionInner
    have hless : sortInterface.Less (ps.reverse ++ p :: x :: rest) (ps.reverse.length + 1)
        ps.reverse.length = lessChild x p := Less_adjacent ps.reverse p x rest
    have hswap : sortInterface.Swap (ps.reverse ++ p :: x :: rest) (ps.reverse.length + 1)
        ps.reverse.length = ps.reverse ++ x :: p :: rest := Swap_adjacent ps.reverse p x rest
    rw [hless, hswap]
    by_cases hx : lessChild x p = true
    · rw [if_pos ⟨Nat.succ_pos _, hx⟩]
      have hl : ps.reverse.length = ps.length := List.length_reverse ps
      rw [hl, ih (p :: rest)]
      simp [sinkInto, hx]
    · rw [if_neg (fun h => hx h.2)]
      simp [sinkInto, hx]

theorem length_sinkInto (x : SplitSizeChild C) (acc : List (SplitSizeChild C)) :
    (sinkInto x acc).length = acc.length + 1 := by
  induction acc with
  | nil => rfl
  | cons p ps ih =>
    unfold sinkInto
    split_ifs
    · simp [ih]
    · simp

/-- The outer loop of the insertion sort, started with the first `acc.length` elements in
place, is a fold of `sinkInto`. -/
theorem insertionOuter_eq (rest : List (SplitSizeChild C)) :
    ∀ acc : List (SplitSizeChild C),
      (List.range' acc.length rest.length).foldl
          (fun d i => sort.insertionInner sortInterface 0 i d) (acc.reverse ++ rest)
        = (rest.foldl (fun a x => sinkInto x a) acc).reverse := by
  induction rest with
  | nil => intro acc; simp
  | cons x r ih =>
    intro acc
    simp only [List.length_cons, List.range'_succ, List.foldl_cons]
    rw [insertionInner_eq x acc r]
    have := ih (sinkInto x acc)
    rw [length_sinkInto] at this
    exact this

/-- The sort of a `SplitSize`, on lists. -/
theorem GoSort_eq (l : List (SplitSizeChild C)) :
    sort.GoSort sortInterface l = (l.foldl (fun a x => sinkInto x a) []).reverse := by
  unfold sort.GoSort sort.insertionSort
  cases l with
  | nil => rfl
  | cons x r =>
    have h := insertionOuter_eq r [x]
    simpa [sortInterface, Len, sinkInto] using h

theorem sinkInto_perm (x : SplitSizeChild C) (acc : List (SplitSizeChild C)) :
    (sinkInto x acc).Perm (x :: acc) := by
  induction acc with
  | nil => exact List.Perm.refl _
  | cons p ps ih =>
    unfold sinkInto
    split_ifs
    · exact (List.Perm.cons p ih).trans (List.Perm.swap x p ps)
    · exact List.Perm.refl _

theorem sinkInto_descending (x : SplitSizeChild C) (acc : List (SplitSizeChild C))
    (h : Descending acc) : Descending (sinkInto x acc) := by
  induction acc with
  | nil => simp [sinkInto, Descending]
  | cons p ps ih =>
    unfold Descending at h ih ⊢
    rw [List.pairwise_cons] at h
    unfold sinkInto
    split_ifs with hx
    · rw [List.pairwise_cons]
      refine ⟨fun y hy => ?_, ih h.2⟩
      rcases List.mem_cons.1 ((sinkInto_perm x ps).mem_iff.1 hy) with rfl | hy2
      · exact lessChild_asymm _ _ hx
      · exact h.1 y hy2
    · rw [List.pairwise_cons]
      refine ⟨fun y hy => ?_, List.pairwise_cons.2 h⟩
      rcases List.mem_cons.1 hy with rfl | hy2
      · exact hx
      · exact lessChild_neg_trans x p y hx (h.1 y hy2)

theorem foldl_sinkInto (l : List (SplitSizeChild C)) :
    ∀ acc : List (SplitSizeChild C), Descending acc →
      ((l.foldl (fun a x => sinkInto x a) acc).Perm (l.reverse ++ acc))
        ∧ Descending (l.foldl (fun a x => sinkInto x a) acc) := by
  induction l with
  | nil => intro acc h; exact ⟨by simp, h⟩
  | cons x r ih =>
    intro acc h
    obtain ⟨h1, h2⟩ := ih (sinkInto x acc) (sinkInto_descending x acc h)
    refine ⟨?_, h2⟩
    simp only [List.foldl_cons, List.reverse_cons, List.append_assoc, List.singleton_append]
    exact h1.trans (List.Perm.append_left _ (sinkInto_perm x acc))

/-- The sort of a `SplitSize` gives a permutation in which no child is `Less` than one that
stands before it. -/
theorem GoSort_sorted (l : List (SplitSizeChild C)) :
    (sort.GoSort sortInterface l).Perm l
      ∧ (sort.GoSort sortInterface l).Pairwise (fun a b => ¬ lessChild b a = true) := by
  rw [GoSort_eq]
  obtain ⟨h1, h2⟩ := foldl_sinkInto l [] List.Pairwise.nil
  constructor
  · have h3 : (l.foldl (fun a x => sinkInto x a) []).Perm l.reverse := by simpa using h1
    exact (List.reverse_perm _).trans (h3.trans (List.reverse_perm l))
  · exact List.pairwise_reverse.2 h2

/-- What the order by `Less` means for the sizes: the children with `MaxSize == 0` come
last, and the others are in non-decreasing order of `MaxSize`. -/
theorem tiers_of_sorted (out : List (SplitSizeChild C))
    (h : out.Pairwise (fun a b => ¬ lessChild b a = true)) :
    out.Pairwise (fun a b => a.MaxSize = 0 → b.MaxSize = 0)
      ∧ out.Pairwise (fun a b => a.MaxSize ≠ 0 → b.MaxSize ≠ 0 → a.MaxSize ≤ b.MaxSize) := by
  constructor
  · refine h.imp ?_
    intro a b hba
    rw [lessChild_iff] at hba
    omega
  · refine h.imp ?_
    intro a b hba
    rw [lessChild_iff] at hba
    omega

end SplitSize

/-! ## Claims -/

/-- C1: for every cache made by `NewMemoryCache`, with any memory limit and any object
limit, and every finite sequence of `Set`, `Del` (exact key, `prefix*` or bare `*`) and
`trim` operations applied to it, `memoryUsage` equals the sum of `len(Data)` over the
objects that are in the map. -/
theorem memoryUsage_eq_sum_of_payloads (memoryLimit objectLimit : Int) (ops : List MemOp) :
    (runOps (NewMemoryCache memoryLimit objectLimit) ops).memoryUsage
      = ((runOps (NewMemoryCache memoryLimit objectLimit) ops).object.entries.map
          (fun e => len e.2.Data)).sum :=
  UsageInv_runOps ops _ (UsageInv_new memoryLimit objectLimit)

/-- C2: for every state, key `k` and object `o` whose payload is within the per-object
ceiling (or the ceiling is 0), `Set(k, o)` returns nil and a following `Get(k, nil)` returns
exactly `o` with a nil error, whatever the memory limit, trim or no trim. -/
theorem Set_then_Get_roundtrip {τ : Type} (m : MemoryCache) (k : GoString) (o : Object) (w : τ)
    (h : m.objectLimit = 0 ∨ len o.Data ≤ m.objectLimit) :
    (m.Set k o).1 = none
      ∧ ((m.Set k o).2.Get k (none : Option (Filler MemoryCache τ)) w).1 = (o, none) := by
  have hlim : ¬ (m.objectLimit ≠ 0 ∧ len o.Data > m.objectLimit) := by
    rintro ⟨h1, h2⟩
    rcases h with h | h
    · exact h1 h
    · omega
  refine ⟨rfl, ?_⟩
  rw [Get_nil_of_some _ k o w (Set_get?_self m k o hlim)]

/-- Witness of C2: a cache with limit 2 that holds two bytes under "a"; storing three bytes
under "b" runs the trim, and the object is read back. -/
theorem Set_then_Get_roundtrip_witness :
    ((NewMemoryCache 2 0).Set (lit "a") ⟨[1, 2], 5⟩).2.objectLimit = 0
      ∧ ((((NewMemoryCache 2 0).Set (lit "a") ⟨[1, 2], 5⟩).2.Set (lit "b") ⟨[1, 2, 3], 7⟩).2.Get
          (lit "b") (none : Option (Filler MemoryCache Unit)) ()).1 = (⟨[1, 2, 3], 7⟩, none) :=
  ⟨rfl, (Set_then_Get_roundtrip ((NewMemoryCache 2 0).Set (lit "a") ⟨[1, 2], 5⟩).2 (lit "b")
    ⟨[1, 2, 3], 7⟩ () (Or.inl rfl)).2⟩

/-- C3: for every cache with object limit `L > 0`, key `k` and object `o` with
`len(o.Data) > L`, `Set(k, o)` returns nil, afterwards `Get(k, nil)` returns a non-nil error
whether or not `k` held an object, and every other key maps to what it mapped to before. -/
theorem oversized_Set_evicts {τ : Type} (m : MemoryCache) (k : GoString) (o : Object) (w : τ)
    (hL : 0 < m.objectLimit) (ho : m.objectLimit < len o.Data) :
    (m.Set k o).1 = none
      ∧ (∃ e, ((m.Set k o).2.Get k (none : Option (Filler MemoryCache τ)) w).1.2 = some e)
      ∧ ∀ k2, k2 ≠ k → (m.Set k o).2.object.get? k2 = m.object.get? k2 := by
  have hobj := Set_oversized m k o ⟨ne_of_gt hL, ho⟩
  refine ⟨rfl, ?_, ?_⟩
  · have hnone : (m.Set k o).2.object.get? k = none := by
      rw [hobj, GoMap.get?_delete, if_pos rfl]
    rw [Get_nil_of_none _ k w hnone]
    exact ⟨_, rfl⟩
  · intro k2 hk2
    rw [hobj, GoMap.get?_delete, if_neg hk2]

/-- Witness of C3: object limit 2, key "a" holds two bytes, then three bytes are set. -/
theorem oversized_Set_evicts_witness :
    (0 < ((NewMemoryCache 100 2).Set (lit "a") ⟨[1, 2], 5⟩).2.objectLimit
      ∧ ((NewMemoryCache 100 2).Set (lit "a") ⟨[1, 2], 5⟩).2.objectLimit
          < len (⟨[1, 2, 3], 7⟩ : Object).Data)
      ∧ ∃ e, ((((NewMemoryCache 100 2).Set (lit "a") ⟨[1, 2], 5⟩).2.Set (lit "a")
          ⟨[1, 2, 3], 7⟩).2.Get (lit "a") (none : Option (Filler MemoryCache Unit)) ()).1.2
          = some e :=
  ⟨by decide, (oversized_Set_evicts ((NewMemoryCache 100 2).Set (lit "a") ⟨[1, 2], 5⟩).2
    (lit "a") ⟨[1, 2, 3], 7⟩ () (by decide) (by decide)).2.1⟩

/-- C4: for every cache made by `NewMemoryCache(limit, objectLimit)` with `limit >= 0` and
every sequence of `Set` and `Del` operations (explicit `trim` steps are allowed too) in which
each object set has at most `limit` bytes, `memoryUsage <= limit` holds after every
operation, that is after every initial part of the sequence. -/
theorem memory_budget_respected (limit objectLimit : Int) (ops : List MemOp) (n : Nat)
    (hl : 0 ≤ limit) (hops : ∀ op ∈ ops, op.withinBudget limit = true) :
    (runOps (NewMemoryCache limit objectLimit) (ops.take n)).memoryUsage ≤ limit :=
  budget_runOps limit hl (ops.take n) (NewMemoryCache limit objectLimit) rfl hl
    (fun op hop => hops op (List.mem_of_mem_take hop))

/-- Witness of C4: limit 5; two objects of three bytes (the second one runs the trim), then
a wildcard delete. -/
theorem memory_budget_respected_witness :
    ((0 : Int) ≤ 5
      ∧ ∀ op ∈ [MemOp.set (lit "a") ⟨[1, 2, 3], 0⟩, MemOp.set (lit "b") ⟨[4, 5, 6], 0⟩,
          MemOp.del (lit "a*")], op.withinBudget 5 = true)
      ∧ (runOps (NewMemoryCache 5 0)
          ([MemOp.set (lit "a") ⟨[1, 2, 3], 0⟩, MemOp.set (lit "b") ⟨[4, 5, 6], 0⟩,
            MemOp.del (lit "a*")].take 2)).memoryUsage ≤ 5 :=
  ⟨by decide, memory_budget_respected 5 0 _ 2 (by decide) (by decide)⟩

/-- C5: for every state and every object `item` within the per-object ceiling, let
`projected = memoryUsage - len(existing entry for path, 0 if none) + len(item.Data)`.  If
`projected > memoryLimit`, then after `Set` the map holds exactly the one entry
`path -> item` and `memoryUsage = len(item.Data)`; otherwise the map is the old one with
`path` updated to `item`, every other key unchanged, and `memoryUsage = projected`. -/
theorem Set_eviction_rule (m : MemoryCache) (path : GoString) (item : Object)
    (h : m.objectLimit = 0 ∨ len item.Data ≤ m.objectLimit) :
    let existing : Int :=
      match m.object.get? path with
      | some old => len old.Data
      | none => 0
    let projected : Int := m.memoryUsage - existing + len item.Data
    (projected > m.memoryLimit →
        (m.Set path item).2.object.entries = [(path, item)]
          ∧ (m.Set path item).2.memoryUsage = len item.Data)
      ∧ (¬ projected > m.memoryLimit →
          (∀ k, (m.Set path item).2.object.get? k
              = if k = path then some item else m.object.get? k)
            ∧ (m.Set path item).2.memoryUsage = projected) := by
  have hlim : ¬ (m.objectLimit ≠ 0 ∧ len item.Data > m.objectLimit) := by
    rintro ⟨h1, h2⟩
    rcases h with h | h
    · exact h1 h
    · omega
  have hex : (match m.object.get? path with
      | some old => len old.Data
      | none => 0) = len ((m.object.get? path).getD Object.zero).Data := by
    cases m.object.get? path <;> rfl
  intro existing projected
  have hproj : projected
      = m.memoryUsage - len ((m.object.get? path).getD Object.zero).Data
        + len item.Data :=
    congrArg (fun x => m.memoryUsage - x + len item.Data) hex
  constructor
  · intro ht
    rw [hproj] at ht
    obtain ⟨h1, h2⟩ := Set_trimmed m path item hlim ht
    exact ⟨by rw [h1]; rfl, h2⟩
  · intro ht
    rw [hproj] at ht ⊢
    obtain ⟨h1, h2⟩ := Set_stored m path item hlim ht
    refine ⟨fun k => ?_, h2⟩
    rw [h1, GoMap.get?_set]

/-- Witness of C5: limit 4; "a" holds three bytes.  Replacing it by four bytes fits
(projected usage 4), storing two bytes under "b" does not (projected usage 5). -/
theorem Set_eviction_rule_witness :
    (((NewMemoryCache 4 0).Set (lit "a") ⟨[1, 2, 3], 0⟩).2.Set (lit "b")
        ⟨[8, 9], 1⟩).2.object.entries = [(lit "b", ⟨[8, 9], 1⟩)]
      ∧ (((NewMemoryCache 4 0).Set (lit "a") ⟨[1, 2, 3], 0⟩).2.Set (lit "a")
          ⟨[6, 7, 8, 9], 1⟩).2.memoryUsage = 4 :=
  ⟨((Set_eviction_rule ((NewMemoryCache 4 0).Set (lit "a") ⟨[1, 2, 3], 0⟩).2 (lit "b")
      ⟨[8, 9], 1⟩ (Or.inl rfl)).1 (by decide)).1,
    ((Set_eviction_rule ((NewMemoryCache 4 0).Set (lit "a") ⟨[1, 2, 3], 0⟩).2 (lit "a")
      ⟨[6, 7, 8, 9], 1⟩ (Or.inl rfl)).2 (by decide)).2⟩

/-- C6: for every state and every string `p`, after `Del(p + "*")` a key is present iff it
was present before and `p` is not one of its prefixes, and each key that survives maps to
the object it mapped to before; after `Del("*")` the map is empty and `memoryUsage` is 0. -/
theorem Del_wildcard (m : MemoryCache) (p : GoString) :
    (∀ k, (m.Del (p ++ lit "*")).object.get? k ≠ none
        ↔ (m.object.get? k ≠ none ∧ ¬ p <+: k))
      ∧ (∀ k o, (m.Del (p ++ lit "*")).object.get? k = some o → m.object.get? k = some o)
      ∧ (m.Del (lit "*")).object.entries = []
      ∧ (m.Del (lit "*")).memoryUsage = 0 := by
  refine ⟨fun k => ?_, fun k o => ?_, ?_, ?_⟩
  · rw [Del_wildcard_get?]
    by_cases hp : p <+: k
    · simp [hp]
    · simp [hp]
  · rw [Del_wildcard_get?]
    by_cases hp : p <+: k
    · simp [hp]
    · simp [hp]
  · rw [Del_star]; rfl
  · rw [Del_star]

/-- C7: for every state and every path that does not end in `*`, after `Del(path)` a
`Get(path, nil)` fails and every other key maps to what it mapped to before; if `path` was
not present, the whole state (map and `memoryUsage`) is as before. -/
theorem Del_exact {τ : Type} (m : MemoryCache) (path : GoString) (w : τ)
    (h : strings.HasSuffix path (lit "*") = false) :
    (∃ e, ((m.Del path).Get path (none : Option (Filler MemoryCache τ)) w).1.2 = some e)
      ∧ (∀ k, k ≠ path → (m.Del path).object.get? k = m.object.get? k)
      ∧ (m.object.get? path = none → m.Del path = m) := by
  rw [Del_exact_eq m path h]
  refine ⟨?_, fun k hk => ?_, fun hnone => ?_⟩
  · have hn : GoMap.get? (m.object.delete path) path = none := by
      rw [GoMap.get?_delete, if_pos rfl]
    rw [Get_nil_of_none _ path w hn]
    exact ⟨_, rfl⟩
  · show GoMap.get? (m.object.delete path) k = _
    rw [GoMap.get?_delete, if_neg hk]
  · rw [hnone, GoMap.delete_of_get?_none m.object path hnone]
    cases m
    simp [Object.zero, len]

/-- Witness of C7: "a" and "b" are stored, "a" is deleted. -/
theorem Del_exact_witness :
    strings.HasSuffix (lit "a") (lit "*") = false
      ∧ ∃ e, (((((NewMemoryCache 9 0).Set (lit "a") ⟨[1], 0⟩).2.Set (lit "b")
          ⟨[2], 0⟩).2.Del (lit "a")).Get (lit "a")
            (none : Option (Filler MemoryCache Unit)) ()).1.2 = some e :=
  ⟨by decide, (Del_exact (((NewMemoryCache 9 0).Set (lit "a") ⟨[1], 0⟩).2.Set (lit "b")
    ⟨[2], 0⟩).2 (lit "a") () (by decide)).1⟩

/-- C8: for every state, key and non-nil filler: if the key is present, `Get` returns the
stored object with a nil error and leaves the cache and the state of the filler as they
are, so the filler is not invoked; if the key is absent, `Get` returns exactly what
`filler.Fill(cache, key)` returns on the unchanged cache, and nothing else changes. -/
theorem Get_fill_on_miss {τ : Type} (m : MemoryCache) (key : GoString)
    (f : Filler MemoryCache τ) (w : τ) :
    (∀ item, m.object.get? key = some item → m.Get key (some f) w = ((item, none), m, w))
      ∧ (m.object.get? key = none → m.Get key (some f) w = f.Fill w m key) := by
  constructor
  · intro item h
    unfold MemoryCache.Get
    rw [h]
  · intro h
    unfold MemoryCache.Get
    rw [h]

/-- Witness of C8: "a" is stored; `Get("a")` leaves the call count at 0, `Get("b")` is the
call of the filler. -/
theorem Get_fill_on_miss_witness :
    (((NewMemoryCache 9 0).Set (lit "a") ⟨[1], 0⟩).2.Get (lit "a") (some countingFiller) 0
        = ((⟨[1], 0⟩, none), ((NewMemoryCache 9 0).Set (lit "a") ⟨[1], 0⟩).2, 0))
      ∧ (((NewMemoryCache 9 0).Set (lit "a") ⟨[1], 0⟩).2.Get (lit "b") (some countingFiller) 0
        = countingFiller.Fill 0 ((NewMemoryCache 9 0).Set (lit "a") ⟨[1], 0⟩).2 (lit "b")) :=
  ⟨(Get_fill_on_miss ((NewMemoryCache 9 0).Set (lit "a") ⟨[1], 0⟩).2 (lit "a")
      countingFiller 0).1 ⟨[1], 0⟩ (by decide),
    (Get_fill_on_miss ((NewMemoryCache 9 0).Set (lit "a") ⟨[1], 0⟩).2 (lit "b")
      countingFiller 0).2 (by decide)⟩

/-- C9, the claim as stated fails for `MemoryCache`: on the empty cache `Get("abc", nil)`
returns an error whose message does not contain "abc". -/
theorem MemoryCache_NotFound_lacks_key :
    (NewMemoryCache 0 0).object.get? (lit "abc") = none
      ∧ ¬ ∃ e, ((NewMemoryCache 0 0).Get (lit "abc")
            (none : Option (Filler MemoryCache Unit)) ()).1.2 = some e
          ∧ strings.Contains e.Error (lit "abc") := by
  refine ⟨rfl, ?_⟩
  rintro ⟨e, he, hc⟩
  have he2 : e = errors.New (lit "Item not found") := (Option.some.inj he).symm
  subst he2
  revert hc
  decide

/-- C9, amended: for every `MemoryCache` state and every key that is not in the map,
`Get(key, nil)` returns a non-nil error whose message is the fixed text "Item not found";
for every `DiskCache` state and every key whose path is not in the existence index,
`Get(key, nil)` returns a non-nil error whose message is the requested key, so that it
contains the key. -/
theorem Get_nil_miss_error {τ υ : Type} (m : MemoryCache) (w : τ)
    (join : GoString → GoString → GoString) (d : Disk) (w2 : υ) (key : GoString) :
    (m.object.get? key = none →
        ∃ e, (m.Get key (none : Option (Filler MemoryCache τ)) w).1.2 = some e
          ∧ e.Error = lit "Item not found")
      ∧ (d.cache.fileList.get? (join d.cache.baseDir key) = none →
        ∃ e, (DiskCache.Get join d key (none : Option (Filler Disk υ)) w2).1.2 = some e
          ∧ e.Error = key ∧ strings.Contains e.Error key) := by
  constructor
  · intro h
    rw [Get_nil_of_none m key w h]
    exact ⟨_, rfl, rfl⟩
  · intro h
    unfold DiskCache.Get
    simp only [h]
    exact ⟨_, rfl, rfl, List.infix_refl key⟩

/-- Witness of C9 as amended: the key "abc" on an empty memory cache and on an empty disk
cache under the directory "cache". -/
theorem Get_nil_miss_error_witness :
    (∃ e, ((NewMemoryCache 0 0).Get (lit "abc")
          (none : Option (Filler MemoryCache Unit)) ()).1.2 = some e
        ∧ e.Error = lit "Item not found")
      ∧ (∃ e, (DiskCache.Get slashJoin ⟨⟨lit "cache", GoMap.make⟩, emptyFileSystem⟩ (lit "abc")
          (none : Option (Filler Disk Unit)) ()).1.2 = some e
        ∧ e.Error = lit "abc" ∧ strings.Contains e.Error (lit "abc")) :=
  ⟨(Get_nil_miss_error (NewMemoryCache 0 0) () slashJoin
      ⟨⟨lit "cache", GoMap.make⟩, emptyFileSystem⟩ () (lit "abc")).1 rfl,
    (Get_nil_miss_error (NewMemoryCache 0 0) () slashJoin
      ⟨⟨lit "cache", GoMap.make⟩, emptyFileSystem⟩ () (lit "abc")).2 rfl⟩

/-- C10: for every list of children, `NewSplitSize(children...)` is a permutation of the
input in which no child with `MaxSize == 0` stands before a child with `MaxSize != 0`, and
the children with `MaxSize != 0` stand in non-decreasing order of `MaxSize`; and
`AddChildCache(maxSize, cache)` on any list (a sorted one included) returns a list with the
same two properties that is a permutation of the old children plus the new one.  The two
order properties hold for every arrangement `out` of the children in which no child is
`Less` than one that stands before it, which is all that is used of the sort. -/
theorem SplitSize_tiers_sorted {C : Type} (children : List (SplitSizeChild C))
    (c : SplitSize C) (maxSize : Int) (cache : C) :
    ((NewSplitSize children).Perm children
        ∧ (NewSplitSize children).Pairwise (fun a b => a.MaxSize = 0 → b.MaxSize = 0)
        ∧ (NewSplitSize children).Pairwise
            (fun a b => a.MaxSize ≠ 0 → b.MaxSize ≠ 0 → a.MaxSize ≤ b.MaxSize))
      ∧ ((c.AddChildCache maxSize cache).Perm (c ++ [⟨maxSize, cache⟩])
        ∧ (c.AddChildCache maxSize cache).Pairwise (fun a b => a.MaxSize = 0 → b.MaxSize = 0)
        ∧ (c.AddChildCache maxSize cache).Pairwise
            (fun a b => a.MaxSize ≠ 0 → b.MaxSize ≠ 0 → a.MaxSize ≤ b.MaxSize))
      ∧ (∀ out : List (SplitSizeChild C), out.Perm children →
          out.Pairwise (fun a b => ¬ SplitSize.lessChild b a = true) →
          out.Pairwise (fun a b => a.MaxSize = 0 → b.MaxSize = 0)
            ∧ out.Pairwise
                (fun a b => a.MaxSize ≠ 0 → b.MaxSize ≠ 0 → a.MaxSize ≤ b.MaxSize)) := by
  refine ⟨?_, ?_, ?_⟩
  · obtain ⟨h1, h2⟩ := SplitSize.GoSort_sorted children
    exact ⟨h1, SplitSize.tiers_of_sorted _ h2⟩
  · obtain ⟨h1, h2⟩ := SplitSize.GoSort_sorted (c ++ [⟨maxSize, cache⟩])
    exact ⟨h1, SplitSize.tiers_of_sorted _ h2⟩
  · intro out _ h
    exact SplitSize.tiers_of_sorted out h

/-- Witness of C10: the arrangement 5, 10, 0 of the children with sizes 0, 10, 5 is ordered
by `Less`, and it has the two order properties. -/
theorem SplitSize_tiers_sorted_witness :
    (([⟨5, 3⟩, ⟨10, 2⟩, ⟨0, 1⟩] : SplitSize Nat).Perm [⟨0, 1⟩, ⟨10, 2⟩, ⟨5, 3⟩]
      ∧ ([⟨5, 3⟩, ⟨10, 2⟩, ⟨0, 1⟩] : SplitSize Nat).Pairwise
          (fun a b => ¬ SplitSize.lessChild b a = true))
      ∧ ([⟨5, 3⟩, ⟨10, 2⟩, ⟨0, 1⟩] : SplitSize Nat).Pairwise
          (fun a b => a.MaxSize = 0 → b.MaxSize = 0)
      ∧ ([⟨5, 3⟩, ⟨10, 2⟩, ⟨0, 1⟩] : SplitSize Nat).Pairwise
          (fun a b => a.MaxSize ≠ 0 → b.MaxSize ≠ 0 → a.MaxSize ≤ b.MaxSize) :=
  ⟨by decide,
    (SplitSize_tiers_sorted ([⟨0, 1⟩, ⟨10, 2⟩, ⟨5, 3⟩] : SplitSize Nat) [] 0 0).2.2
      [⟨5, 3⟩, ⟨10, 2⟩, ⟨0, 1⟩] (by decide) (by decide)⟩

/-! ## Lemmas on the composite `SplitSize` -/

theorem exists_first_split {α : Type} (p : α → Prop) (l : List α) (h : ∃ a ∈ l, p a) :
    ∃ pre a post, l = pre ++ a :: post ∧ (∀ b ∈ pre, ¬ p b) ∧ p a := by
  induction l with
  | nil => obtain ⟨a, ha, _⟩ := h; simp at ha
  | cons x xs ih =>
    by_cases hx : p x
    · exact ⟨[], x, xs, rfl, by simp, hx⟩
    · have h2 : ∃ a ∈ xs, p a := by
        obtain ⟨a, ha, hpa⟩ := h
        rcases List.mem_cons.1 ha with rfl | hin
        · exact absurd hpa hx
        · exact ⟨a, hin, hpa⟩
      obtain ⟨pre, a, post, hl, hpre, ha⟩ := ih h2
      refine ⟨x :: pre, a, post, by rw [hl]; rfl, ?_, ha⟩
      intro b hb
      rcases List.mem_cons.1 hb with rfl | hin
      · exact hx
      · exact hpre b hin

namespace SplitSize

variable {C : Type}

/-- `Set` passes the children that are too small and calls the first one that is not. -/
theorem Set_first_fit (ops : Cache C) (path : GoString) (object : Object)
    (pre : List (SplitSizeChild C)) (ch : SplitSizeChild C) (post : List (SplitSizeChild C))
    (hpre : ∀ c ∈ pre, ¬ (len object.Data ≤ c.MaxSize ∨ c.MaxSize = 0))
    (hch : len object.Data ≤ ch.MaxSize ∨ ch.MaxSize = 0) :
    Set ops (pre ++ ch :: post) path object
      = ((ops.Set ch.Cache path object).1,
          pre ++ ⟨ch.MaxSize, (ops.Set ch.Cache path object).2⟩ :: post) := by
  induction pre with
  | nil =>
    rw [List.nil_append, Set, if_pos hch]
    rfl
  | cons x xs ih =>
    have hx := hpre x (List.mem_cons_self _ _)
    have ih2 := ih (fun c hc => hpre c (List.mem_cons_of_mem _ hc))
    rw [List.cons_append, Set, if_neg hx, ih2]
    rfl

/-- `Set` on children that are all too small: nil, and nothing changes. -/
theorem Set_no_fit (ops : Cache C) (path : GoString) (object : Object)
    (s : List (SplitSizeChild C))
    (h : ∀ c ∈ s, ¬ (len object.Data ≤ c.MaxSize ∨ c.MaxSize = 0)) :
    Set ops s path object = (none, s) := by
  induction s with
  | nil => rfl
  | cons x xs ih =>
    have hx := h x (List.mem_cons_self _ _)
    have ih2 := ih (fun c hc => h c (List.mem_cons_of_mem _ hc))
    rw [Set, if_neg hx, ih2]

/-- In a slice ordered by `Less`, the first child that fits an object of `n` bytes has the
least bound among the bounded children that fit, when there is one. -/
theorem first_fit_least (n : Int) (pre : List (SplitSizeChild C)) (ch : SplitSizeChild C)
    (post : List (SplitSizeChild C))
    (hs : (pre ++ ch :: post).Pairwise (fun a b => ¬ lessChild b a = true))
    (hpre : ∀ c ∈ pre, ¬ (n ≤ c.MaxSize ∨ c.MaxSize = 0))
    (hch : n ≤ ch.MaxSize ∨ ch.MaxSize = 0)
    (hex : ∃ c ∈ pre ++ ch :: post, c.MaxSize ≠ 0 ∧ n ≤ c.MaxSize) :
    ch.MaxSize ≠ 0 ∧ n ≤ ch.MaxSize
      ∧ ∀ c ∈ pre ++ ch :: post, c.MaxSize ≠ 0 → n ≤ c.MaxSize → ch.MaxSize ≤ c.MaxSize := by
  have hpost : ∀ c ∈ post, ¬ lessChild c ch = true :=
    (List.pairwise_cons.1 (List.pairwise_append.1 hs).2.1).1
  have hne : ch.MaxSize ≠ 0 := by
    intro h0
    obtain ⟨c, hc, hc0, hcn⟩ := hex
    rcases List.mem_append.1 hc with hin | hin
    · exact hpre c hin (Or.inl hcn)
    · rcases List.mem_cons.1 hin with rfl | hin2
      · exact hc0 h0
      · have := hpost c hin2
        rw [lessChild_iff] at this
        exact this ⟨hc0, Or.inl h0⟩
  have hn : n ≤ ch.MaxSize := by
    rcases hch with h | h
    · exact h
    · exact absurd h hne
  refine ⟨hne, hn, ?_⟩
  intro c hc hc0 hcn
  rcases List.mem_append.1 hc with hin | hin
  · exact absurd (Or.inl hcn) (hpre c hin)
  · rcases List.mem_cons.1 hin with rfl | hin2
    · exact le_refl _
    · have := hpost c hin2
      rw [lessChild_iff] at this
      omega

end SplitSize

namespace SplitSize

variable {C : Type}

/-- The loop of `Get` on children that all miss: every child is asked once, and the error at
the end is non-nil unless there is no child. -/
theorem probe_all_miss (ops : Cache C) (key : GoString) (s : List (SplitSizeChild C)) :
    ∀ acc : Object × Option GoError,
      (∀ c ∈ s, (ops.Get Unit c.Cache key none ()).1.2 ≠ none) →
      (probe ops key s acc).2
          = s.map (fun c => ⟨c.MaxSize, (ops.Get Unit c.Cache key none ()).2.1⟩)
        ∧ (s ≠ [] → (probe ops key s acc).1.2 ≠ none) := by
  induction s with
  | nil => intro acc _; exact ⟨rfl, fun h => absurd rfl h⟩
  | cons x xs ih =>
    intro acc h
    have hx := h x (List.mem_cons_self _ _)
    obtain ⟨e, he⟩ := Option.ne_none_iff_exists'.1 hx
    obtain ⟨ih1, ih2⟩ := ih (ops.Get Unit x.Cache key none ()).1
      (fun c hc => h c (List.mem_cons_of_mem _ hc))
    simp only [probe, he, List.map_cons]
    refine ⟨by rw [ih1], fun _ => ?_⟩
    by_cases hxs : xs = []
    · subst hxs
      simp only [probe]
      exact hx
    · exact ih2 hxs

/-- The loop of `Get` ends at the first child that returns a nil error. -/
theorem probe_first_hit (ops : Cache C) (key : GoString) (pre : List (SplitSizeChild C))
    (ch : SplitSizeChild C) (post : List (SplitSizeChild C))
    (hpre : ∀ c ∈ pre, (ops.Get Unit c.Cache key none ()).1.2 ≠ none)
    (hch : (ops.Get Unit ch.Cache key none ()).1.2 = none) :
    ∀ acc : Object × Option GoError,
      probe ops key (pre ++ ch :: post) acc
        = ((ops.Get Unit ch.Cache key none ()).1,
            pre.map (fun c => ⟨c.MaxSize, (ops.Get Unit c.Cache key none ()).2.1⟩)
              ++ ⟨ch.MaxSize, (ops.Get Unit ch.Cache key none ()).2.1⟩ :: post) := by
  induction pre with
  | nil =>
    intro acc
    simp only [List.nil_append, probe, hch, List.map_nil]
  | cons x xs ih =>
    intro acc
    have hx := hpre x (List.mem_cons_self _ _)
    obtain ⟨e, he⟩ := Option.ne_none_iff_exists'.1 hx
    have ih2 := ih (fun c hc => hpre c (List.mem_cons_of_mem _ hc))
      (ops.Get Unit x.Cache key none ()).1
    rw [List.cons_append]
    simp only [probe, he, ih2, List.map_cons, List.cons_append]

/-- With a nil filler `Get` is the loop alone. -/
theorem Get_nil_filler {τ : Type} (ops : Cache C) (s : List (SplitSizeChild C))
    (key : GoString) (w : τ) :
    Get ops s key (none : Option (Filler (SplitSize C) τ)) w
      = ((probe ops key s (Object.zero, none)).1, (probe ops key s (Object.zero, none)).2,
          w) := by
  unfold Get
  simp only []
  split <;> first | rfl | simp_all

/-- When there are children and every one misses, `Get` is one call of the filler on the
composite. -/
theorem Get_all_miss {τ : Type} (ops : Cache C) (s : List (SplitSizeChild C))
    (key : GoString) (f : Filler (SplitSize C) τ) (w : τ) (hs : s ≠ [])
    (h : ∀ c ∈ s, (ops.Get Unit c.Cache key none ()).1.2 ≠ none) :
    Get ops s key (some f) w
      = f.Fill w (s.map (fun c => ⟨c.MaxSize, (ops.Get Unit c.Cache key none ()).2.1⟩))
          key := by
  obtain ⟨h1, h2⟩ := probe_all_miss ops key s (Object.zero, none) h
  obtain ⟨e, he⟩ := Option.ne_none_iff_exists'.1 (h2 hs)
  simp only [Get, he, h1]

end SplitSize

/-- C11: for every `SplitSize` made by `NewSplitSize` and every object of `n` bytes: if some
child has `MaxSize != 0` and `MaxSize >= n`, `Set` calls `Set` on one child with the least
such `MaxSize`, returns its result and leaves the other children as they are; otherwise, if
some child has `MaxSize == 0`, `Set` does so with a child with `MaxSize == 0`; and if no
child qualifies, `Set` returns nil and changes no child. -/
theorem SplitSize_Set_routing {C : Type} (ops : Cache C) (children : List (SplitSizeChild C))
    (path : GoString) (object : Object) :
    ((∃ c ∈ NewSplitSize children, c.MaxSize ≠ 0 ∧ len object.Data ≤ c.MaxSize) →
        ∃ pre ch post, NewSplitSize children = pre ++ ch :: post
          ∧ ch.MaxSize ≠ 0 ∧ len object.Data ≤ ch.MaxSize
          ∧ (∀ c ∈ NewSplitSize children, c.MaxSize ≠ 0 → len object.Data ≤ c.MaxSize →
              ch.MaxSize ≤ c.MaxSize)
          ∧ SplitSize.Set ops (NewSplitSize children) path object
            = ((ops.Set ch.Cache path object).1,
                pre ++ ⟨ch.MaxSize, (ops.Set ch.Cache path object).2⟩ :: post))
      ∧ ((¬ ∃ c ∈ NewSplitSize children, c.MaxSize ≠ 0 ∧ len object.Data ≤ c.MaxSize) →
          (∃ c ∈ NewSplitSize children, c.MaxSize = 0) →
          ∃ pre ch post, NewSplitSize children = pre ++ ch :: post
            ∧ ch.MaxSize = 0
            ∧ SplitSize.Set ops (NewSplitSize children) path object
              = ((ops.Set ch.Cache path object).1,
                  pre ++ ⟨ch.MaxSize, (ops.Set ch.Cache path object).2⟩ :: post))
      ∧ ((¬ ∃ c ∈ NewSplitSize children, c.MaxSize ≠ 0 ∧ len object.Data ≤ c.MaxSize) →
          (¬ ∃ c ∈ NewSplitSize children, c.MaxSize = 0) →
          SplitSize.Set ops (NewSplitSize children) path object
            = (none, NewSplitSize children)) := by
  have hsorted := (SplitSize.GoSort_sorted children).2
  change (NewSplitSize children).Pairwise _ at hsorted
  generalize NewSplitSize children = s at hsorted ⊢
  refine ⟨fun hex => ?_, fun hno hz => ?_, fun hno hz => ?_⟩
  · have hq : ∃ c ∈ s, len object.Data ≤ c.MaxSize ∨ c.MaxSize = 0 := by
      obtain ⟨c, hc, _, hcn⟩ := hex
      exact ⟨c, hc, Or.inl hcn⟩
    obtain ⟨pre, ch, post, hs, hpre, hch⟩ := exists_first_split _ s hq
    subst hs
    obtain ⟨h1, h2, h3⟩ := SplitSize.first_fit_least _ pre ch post hsorted hpre hch hex
    exact ⟨pre, ch, post, rfl, h1, h2, h3, SplitSize.Set_first_fit ops path object pre ch post
      hpre hch⟩
  · have hq : ∃ c ∈ s, len object.Data ≤ c.MaxSize ∨ c.MaxSize = 0 := by
      obtain ⟨c, hc, hc0⟩ := hz
      exact ⟨c, hc, Or.inr hc0⟩
    obtain ⟨pre, ch, post, hs, hpre, hch⟩ := exists_first_split _ s hq
    subst hs
    have h0 : ch.MaxSize = 0 := by
      by_contra hne
      rcases hch with h | h
      · exact hno ⟨ch, by simp, hne, h⟩
      · exact hne h
    exact ⟨pre, ch, post, rfl, h0, SplitSize.Set_first_fit ops path object pre ch post hpre hch⟩
  · apply SplitSize.Set_no_fit
    intro c hc hq
    by_cases h0 : c.MaxSize = 0
    · exact hz ⟨c, hc, h0⟩
    · rcases hq with h | h
      · exact hno ⟨c, hc, h0, h⟩
      · exact h0 h

/-- Witness of C11: with the tiers `(10, A)` and `(0, B)` an object of 8 bytes goes to the
bounded tier and an object of 50 bytes to the unbounded one. -/
theorem SplitSize_Set_routing_witness :
    ((∃ c ∈ tiersAB, c.MaxSize ≠ 0 ∧ len (zeroBytes 8).Data ≤ c.MaxSize)
        ∧ ∃ pre ch post, tiersAB = pre ++ ch :: post
          ∧ ch.MaxSize ≠ 0 ∧ len (zeroBytes 8).Data ≤ ch.MaxSize
          ∧ (∀ c ∈ tiersAB, c.MaxSize ≠ 0 → len (zeroBytes 8).Data ≤ c.MaxSize →
              ch.MaxSize ≤ c.MaxSize)
          ∧ SplitSize.Set MemoryCache.asCache tiersAB (lit "k") (zeroBytes 8)
            = ((MemoryCache.asCache.Set ch.Cache (lit "k") (zeroBytes 8)).1,
                pre ++ ⟨ch.MaxSize, (MemoryCache.asCache.Set ch.Cache (lit "k")
                  (zeroBytes 8)).2⟩ :: post))
      ∧ (((¬ ∃ c ∈ tiersAB, c.MaxSize ≠ 0 ∧ len (zeroBytes 50).Data ≤ c.MaxSize)
          ∧ ∃ c ∈ tiersAB, c.MaxSize = 0)
        ∧ ∃ pre ch post, tiersAB = pre ++ ch :: post
          ∧ ch.MaxSize = 0
          ∧ SplitSize.Set MemoryCache.asCache tiersAB (lit "k") (zeroBytes 50)
            = ((MemoryCache.asCache.Set ch.Cache (lit "k") (zeroBytes 50)).1,
                pre ++ ⟨ch.MaxSize, (MemoryCache.asCache.Set ch.Cache (lit "k")
                  (zeroBytes 50)).2⟩ :: post)) :=
  ⟨⟨by decide,
      (SplitSize_Set_routing MemoryCache.asCache
        [⟨0, NewMemoryCache 100 0⟩, ⟨10, NewMemoryCache 100 0⟩] (lit "k") (zeroBytes 8)).1
        (by decide)⟩,
    ⟨by decide,
      (SplitSize_Set_routing MemoryCache.asCache
        [⟨0, NewMemoryCache 100 0⟩, ⟨10, NewMemoryCache 100 0⟩] (lit "k") (zeroBytes 50)).2.1
        (by decide) (by decide)⟩⟩

example : (SplitSize.Set MemoryCache.asCache tiersAB (lit "k") (zeroBytes 8)).2.map
    (fun c => (c.MaxSize, c.Cache.object.get? (lit "k")))
    = [(10, some (zeroBytes 8)), (0, none)] := by decide

example : (SplitSize.Set MemoryCache.asCache tiersAB (lit "k") (zeroBytes 50)).2.map
    (fun c => (c.MaxSize, c.Cache.object.get? (lit "k")))
    = [(10, none), (0, some (zeroBytes 50))] := by decide

/-- C12, the code at the failing input: on a composite without children `Get` with a
non-nil filler returns `Object{}` and a nil error and leaves the composite and the state of
the filler as they are, so the filler is not called, where the claim has it called once. -/
theorem SplitSize_Get_no_children_skips_filler {C τ : Type} (ops : Cache C) (key : GoString)
    (f : Filler (SplitSize C) τ) (w : τ) :
    SplitSize.Get ops (NewSplitSize []) key (some f) w = ((Object.zero, none), [], w) :=
  rfl

/-- C13: for every `SplitSize` and key that at least one child holds (its `Get(key, nil)`
returns a nil error), `Get(key, filler)` returns with a nil error the object that the first
such child in list order returns; the children before it and this child are asked with a
nil filler, the children after it are not asked, and the state of the filler of the caller
is left as it is, so that this filler is not called. -/
theorem SplitSize_Get_first_hit {C τ : Type} (ops : Cache C) (s : SplitSize C)
    (key : GoString) (filler : Option (Filler (SplitSize C) τ)) (w : τ)
    (h : ∃ c ∈ s, (ops.Get Unit c.Cache key none ()).1.2 = none) :
    ∃ pre ch post, s = pre ++ ch :: post
      ∧ (∀ c ∈ pre, (ops.Get Unit c.Cache key none ()).1.2 ≠ none)
      ∧ (ops.Get Unit ch.Cache key none ()).1.2 = none
      ∧ SplitSize.Get ops s key filler w
        = (((ops.Get Unit ch.Cache key none ()).1.1, none),
            pre.map (fun c => ⟨c.MaxSize, (ops.Get Unit c.Cache key none ()).2.1⟩)
              ++ ⟨ch.MaxSize, (ops.Get Unit ch.Cache key none ()).2.1⟩ :: post,
            w) := by
  obtain ⟨pre, ch, post, hs, hpre, hch⟩ :=
    exists_first_split (fun c => (ops.Get Unit c.Cache key none ()).1.2 = none) s h
  refine ⟨pre, ch, post, hs, hpre, hch, ?_⟩
  subst hs
  have hp := SplitSize.probe_first_hit ops key pre ch post hpre hch (Object.zero, none)
  have hpair : (ops.Get Unit ch.Cache key none ()).1
      = ((ops.Get Unit ch.Cache key none ()).1.1, none) := by
    rw [← hch]
  simp only [SplitSize.Get, hp, hch]
  rw [← hpair]

/-- Witness of C13: tier `A` holds "k"; `Get` returns its object and the call count of the
filler stays 0. -/
theorem SplitSize_Get_first_hit_witness :
    (∃ c ∈ tiersStale, (MemoryCache.asCache.Get Unit c.Cache (lit "k") none ()).1.2 = none)
      ∧ ∃ pre ch post, tiersStale = pre ++ ch :: post
        ∧ (∀ c ∈ pre, (MemoryCache.asCache.Get Unit c.Cache (lit "k") none ()).1.2 ≠ none)
        ∧ (MemoryCache.asCache.Get Unit ch.Cache (lit "k") none ()).1.2 = none
        ∧ SplitSize.Get MemoryCache.asCache tiersStale (lit "k") (some splitCountingFiller) 0
          = (((MemoryCache.asCache.Get Unit ch.Cache (lit "k") none ()).1.1, none),
              pre.map (fun c =>
                  ⟨c.MaxSize, (MemoryCache.asCache.Get Unit c.Cache (lit "k") none ()).2.1⟩)
                ++ ⟨ch.MaxSize,
                    (MemoryCache.asCache.Get Unit ch.Cache (lit "k") none ()).2.1⟩ :: post,
              0) :=
  ⟨by decide,
    SplitSize_Get_first_hit MemoryCache.asCache tiersStale (lit "k") (some splitCountingFiller)
      0 (by decide)⟩

example : (SplitSize.Get MemoryCache.asCache tiersStale (lit "k")
    (some splitCountingFiller) 0).1 = (zeroBytes 8, none) := by decide

example : (SplitSize.Get MemoryCache.asCache tiersStale (lit "k")
    (some splitCountingFiller) 0).2.2 = 0 := by decide

example : (SplitSize.Get MemoryCache.asCache tiersStale (lit "other")
    (some splitCountingFiller) 0).2.2 = 1 := by decide

/-- C14, the claim as stated fails: the tiers are `(10, A)` and `(0, B)`, both without a
per-object ceiling, and `A` holds 8 bytes under "k".  `Set` of 50 bytes under "k" returns
nil and goes to `B`, and the `Get` that follows returns the 8 bytes of `A`. -/
theorem SplitSize_stale_tier_shadows_Set :
    (∀ c ∈ tiersStale, c.Cache.objectLimit = 0)
      ∧ (∃ c ∈ tiersStale, c.MaxSize = 0)
      ∧ (SplitSize.Set MemoryCache.asCache tiersStale (lit "k") (zeroBytes 50)).1 = none
      ∧ (SplitSize.Get MemoryCache.asCache
            (SplitSize.Set MemoryCache.asCache tiersStale (lit "k") (zeroBytes 50)).2
            (lit "k") (none : Option (Filler (SplitSize MemoryCache) Unit)) ()).1
          = (zeroBytes 8, none)
      ∧ zeroBytes 8 ≠ zeroBytes 50 := by
  decide

/-- C14, amended: for every `SplitSize` built by `NewSplitSize` over `MemoryCache` children
without per-object ceilings that includes an unbounded tier, every key `k`, every object
`o` and every state of the children in which no child that is too small for `o`
(`MaxSize != 0` and `MaxSize < len(o.Data)`) holds `k`, `Set(k, o)` on the composite
returns nil and the `Get(k, nil)` that follows returns `o` with a nil error. -/
theorem SplitSize_roundtrip (children : List (SplitSizeChild MemoryCache)) (k : GoString)
    (o : Object)
    (hlim : ∀ c ∈ children, c.Cache.objectLimit = 0)
    (hunb : ∃ c ∈ children, c.MaxSize = 0)
    (hfree : ∀ c ∈ children, c.MaxSize ≠ 0 → c.MaxSize < len o.Data →
      c.Cache.object.get? k = none) :
    (SplitSize.Set MemoryCache.asCache (NewSplitSize children) k o).1 = none
      ∧ (SplitSize.Get MemoryCache.asCache
            (SplitSize.Set MemoryCache.asCache (NewSplitSize children) k o).2 k
            (none : Option (Filler (SplitSize MemoryCache) Unit)) ()).1 = (o, none) := by
  have hperm := (SplitSize.GoSort_sorted children).1
  change (NewSplitSize children).Perm children at hperm
  have hlim2 : ∀ c ∈ NewSplitSize children, c.Cache.objectLimit = 0 :=
    fun c hc => hlim c (hperm.mem_iff.1 hc)
  have hfree2 : ∀ c ∈ NewSplitSize children, c.MaxSize ≠ 0 → c.MaxSize < len o.Data →
      c.Cache.object.get? k = none :=
    fun c hc => hfree c (hperm.mem_iff.1 hc)
  have hq : ∃ c ∈ NewSplitSize children, len o.Data ≤ c.MaxSize ∨ c.MaxSize = 0 := by
    obtain ⟨c, hc, hc0⟩ := hunb
    exact ⟨c, hperm.mem_iff.2 hc, Or.inr hc0⟩
  generalize NewSplitSize children = s at hlim2 hfree2 hq ⊢
  obtain ⟨pre, ch, post, hs, hpre, hch⟩ := exists_first_split _ s hq
  subst hs
  rw [SplitSize.Set_first_fit MemoryCache.asCache k o pre ch post hpre hch]
  refine ⟨rfl, ?_⟩
  have hmiss : ∀ c ∈ pre, (MemoryCache.asCache.Get Unit c.Cache k none ()).1.2 ≠ none := by
    intro c hc
    have hnq := hpre c hc
    have hnone : c.Cache.object.get? k = none :=
      hfree2 c (List.mem_append_left _ hc) (fun h0 => hnq (Or.inr h0))
        (lt_of_not_ge (fun hge => hnq (Or.inl hge)))
    show (c.Cache.Get k none ()).1.2 ≠ none
    rw [Get_nil_of_none c.Cache k () hnone]
    simp
  have hchlim : ch.Cache.objectLimit = 0 := hlim2 ch (by simp)
  have hstored : (ch.Cache.Set k o).2.object.get? k = some o :=
    Set_get?_self ch.Cache k o (fun h => h.1 hchlim)
  have hhit : (MemoryCache.asCache.Get Unit (ch.Cache.Set k o).2 k none ()).1 = (o, none) := by
    show ((ch.Cache.Set k o).2.Get k none ()).1 = (o, none)
    rw [Get_nil_of_some _ k o () hstored]
  have hp := SplitSize.probe_first_hit MemoryCache.asCache k pre
    ⟨ch.MaxSize, (MemoryCache.asCache.Set ch.Cache k o).2⟩ post hmiss
    (by show (MemoryCache.asCache.Get Unit (ch.Cache.Set k o).2 k none ()).1.2 = none
        rw [hhit])
    (Object.zero, none)
  rw [SplitSize.Get_nil_filler, hp]
  exact hhit

/-- Witness of C14 as amended: in the empty tiers `(10, A)` and `(0, B)` an object of 50
bytes is set and read back. -/
theorem SplitSize_roundtrip_witness :
    ((∀ c ∈ [(⟨0, NewMemoryCache 100 0⟩ : SplitSizeChild MemoryCache),
          ⟨10, NewMemoryCache 100 0⟩], c.Cache.objectLimit = 0)
        ∧ (∃ c ∈ [(⟨0, NewMemoryCache 100 0⟩ : SplitSizeChild MemoryCache),
          ⟨10, NewMemoryCache 100 0⟩], c.MaxSize = 0)
        ∧ ∀ c ∈ [(⟨0, NewMemoryCache 100 0⟩ : SplitSizeChild MemoryCache),
          ⟨10, NewMemoryCache 100 0⟩], c.MaxSize ≠ 0 → c.MaxSize < len (zeroBytes 50).Data →
            c.Cache.object.get? (lit "k") = none)
      ∧ (SplitSize.Get MemoryCache.asCache
            (SplitSize.Set MemoryCache.asCache tiersAB (lit "k") (zeroBytes 50)).2 (lit "k")
            (none : Option (Filler (SplitSize MemoryCache) Unit)) ()).1
          = (zeroBytes 50, none) :=
  ⟨by decide,
    (SplitSize_roundtrip [⟨0, NewMemoryCache 100 0⟩, ⟨10, NewMemoryCache 100 0⟩] (lit "k")
      (zeroBytes 50) (by decide) (by decide) (by decide)).2⟩

/-! ## Further lemmas on `MemoryCache.Set` -/

theorem GoMap.ext_entries {V : Type} (a b : GoMap V) (h : a.entries = b.entries) : a = b := by
  cases a; cases b
  simp only [GoMap.mk.injEq]
  exact h

theorem GoMap.set_set {V : Type} (m : GoMap V) (k : GoString) (v : V) :
    (m.set k v).set k v = m.set k v := by
  apply GoMap.ext_entries
  show (k, v) :: GoMap.eraseList k ((k, v) :: GoMap.eraseList k m.entries)
    = (k, v) :: GoMap.eraseList k m.entries
  have h1 : GoMap.eraseList k ((k, v) :: GoMap.eraseList k m.entries)
      = GoMap.eraseList k (GoMap.eraseList k m.entries) := by
    unfold GoMap.eraseList
    exact List.filter_cons_of_neg (by simp)
  rw [h1]
  have h2 : GoMap.lookupList k (GoMap.eraseList k m.entries) = none := by
    rw [GoMap.lookupList_eraseList, if_pos rfl]
  rw [GoMap.eraseList_of_lookupList_none k _ h2]

theorem usageOf_nonneg (m : GoMap Object) : 0 ≤ usageOf m := by
  unfold usageOf
  apply List.sum_nonneg
  intro x hx
  obtain ⟨e, _, rfl⟩ := List.mem_map.1 hx
  exact len_nonneg _

theorem Set_objectLimit (m : MemoryCache) (path : GoString) (item : Object) :
    (m.Set path item).2.objectLimit = m.objectLimit := by
  unfold MemoryCache.Set
  cases m.object.get? path <;> simp only [] <;> split_ifs <;> rfl

theorem Del_objectLimit (m : MemoryCache) (path : GoString) :
    (m.Del path).objectLimit = m.objectLimit := by
  unfold MemoryCache.Del
  split_ifs
  · rfl
  · exact (foldl_delStep_limits _ _ m).2.1
  · rfl

theorem runOps_limits (ops : List MemOp) :
    ∀ m : MemoryCache, (runOps m ops).memoryLimit = m.memoryLimit
      ∧ (runOps m ops).objectLimit = m.objectLimit := by
  induction ops with
  | nil => intro m; exact ⟨rfl, rfl⟩
  | cons op ops ih =>
    intro m
    obtain ⟨h1, h2⟩ := ih (op.apply m)
    show (runOps (op.apply m) ops).memoryLimit = _ ∧ (runOps (op.apply m) ops).objectLimit = _
    rw [h1, h2]
    cases op with
    | set path item => exact ⟨Set_memoryLimit m path item, Set_objectLimit m path item⟩
    | del path => exact ⟨Del_memoryLimit m path, Del_objectLimit m path⟩
    | trim => exact ⟨rfl, rfl⟩

/-- An object over the whole budget, set in a state whose counter agrees with the map. -/
theorem Set_over_budget (m : MemoryCache) (path : GoString) (item : Object)
    (hinv : UsageInv m)
    (hobj : m.objectLimit = 0 ∨ len item.Data ≤ m.objectLimit)
    (hbig : m.memoryLimit < len item.Data) :
    (m.Set path item).2.object.entries = [(path, item)]
      ∧ (m.Set path item).2.memoryUsage = len item.Data := by
  have hlim : ¬ (m.objectLimit ≠ 0 ∧ len item.Data > m.objectLimit) := by
    rintro ⟨h1, h2⟩
    rcases hobj with h | h
    · exact h1 h
    · omega
  have hrest : 0 ≤ m.memoryUsage - len ((m.object.get? path).getD Object.zero).Data := by
    have h1 := usageOf_delete m.object path
    have h2 := usageOf_nonneg (m.object.delete path)
    unfold UsageInv at hinv
    omega
  obtain ⟨h1, h2⟩ := Set_trimmed m path item hlim (by omega)
  exact ⟨by rw [h1]; rfl, h2⟩

/-- The three ways `Set` can go, as equations on the whole state. -/
theorem Set_eq_oversized (m : MemoryCache) (path : GoString) (item : Object)
    (h : m.objectLimit ≠ 0 ∧ len item.Data > m.objectLimit) :
    m.Set path item
      = (none, { m with
          memoryUsage := m.memoryUsage - len ((m.object.get? path).getD Object.zero).Data,
          object := m.object.delete path }) := by
  unfold MemoryCache.Set
  cases m.object.get? path <;> simp only [] <;> rw [if_pos h] <;> simp [Object.zero, len]

theorem Set_eq_trimmed (m : MemoryCache) (path : GoString) (item : Object)
    (h : ¬ (m.objectLimit ≠ 0 ∧ len item.Data > m.objectLimit))
    (ht : m.memoryUsage - len ((m.object.get? path).getD Object.zero).Data + len item.Data
            > m.memoryLimit) :
    m.Set path item
      = (none, { m with object := GoMap.make.set path item,
                        memoryUsage := len item.Data }) := by
  unfold MemoryCache.Set
  cases hget : m.object.get? path with
  | none =>
    rw [hget] at ht
    simp only [Option.getD_none, Object.zero, len, List.length_nil, Int.ofNat_zero,
      sub_zero] at ht
    simp only []
    rw [if_neg h, if_pos (by simpa [len] using ht)]
    simp [MemoryCache.trim]
  | some old =>
    rw [hget] at ht
    simp only [Option.getD_some] at ht
    simp only []
    rw [if_neg h, if_pos ht]
    simp [MemoryCache.trim]

theorem Set_eq_stored (m : MemoryCache) (path : GoString) (item : Object)
    (h : ¬ (m.objectLimit ≠ 0 ∧ len item.Data > m.objectLimit))
    (ht : ¬ m.memoryUsage - len ((m.object.get? path).getD Object.zero).Data + len item.Data
            > m.memoryLimit) :
    m.Set path item
      = (none, { m with object := m.object.set path item,
                        memoryUsage :=
                          m.memoryUsage - len ((m.object.get? path).getD Object.zero).Data
                            + len item.Data }) := by
  unfold MemoryCache.Set
  cases hget : m.object.get? path with
  | none =>
    rw [hget] at ht
    simp only [Option.getD_none, Object.zero, len, List.length_nil, Int.ofNat_zero,
      sub_zero] at ht
    simp only []
    rw [if_neg h, if_neg (by simpa [len] using ht)]
    simp [Object.zero, len]
  | some old =>
    rw [hget] at ht
    simp only [Option.getD_some] at ht
    simp only []
    rw [if_neg h, if_neg ht]
    simp

theorem Set_Set (m : MemoryCache) (path : GoString) (item : Object) :
    (m.Set path item).2.Set path item = m.Set path item := by
  by_cases h : m.objectLimit ≠ 0 ∧ len item.Data > m.objectLimit
  · have hnone : (m.object.delete path).get? path = none := by
      rw [GoMap.get?_delete, if_pos rfl]
    have e1 := Set_eq_oversized m path item h
    have e2 := Set_eq_oversized (m.Set path item).2 path item
      (by rw [Set_objectLimit]; exact h)
    rw [e2, e1]
    simp only [hnone, Option.getD_none, GoMap.delete_of_get?_none _ path hnone]
    simp [Object.zero, len]
  · by_cases ht : m.memoryUsage - len ((m.object.get? path).getD Object.zero).Data
        + len item.Data > m.memoryLimit
    · have e1 := Set_eq_trimmed m path item h ht
      have hsome : (GoMap.make.set path item).get? path = some item := by
        rw [GoMap.get?_set, if_pos rfl]
      have h2 : ¬ ((m.Set path item).2.objectLimit ≠ 0
          ∧ len item.Data > (m.Set path item).2.objectLimit) := by
        rw [Set_objectLimit]; exact h
      by_cases ht2 : (m.Set path item).2.memoryUsage
          - len (((m.Set path item).2.object.get? path).getD Object.zero).Data
          + len item.Data > (m.Set path item).2.memoryLimit
      · rw [Set_eq_trimmed (m.Set path item).2 path item h2 ht2, e1]
      · rw [Set_eq_stored (m.Set path item).2 path item h2 ht2, e1]
        simp only [hsome, Option.getD_some, GoMap.set_set]
        simp
    · have e1 := Set_eq_stored m path item h ht
      have hsome : (m.object.set path item).get? path = some item := by
        rw [GoMap.get?_set, if_pos rfl]
      have h2 : ¬ ((m.Set path item).2.objectLimit ≠ 0
          ∧ len item.Data > (m.Set path item).2.objectLimit) := by
        rw [Set_objectLimit]; exact h
      have ht2 : ¬ (m.Set path item).2.memoryUsage
          - len (((m.Set path item).2.object.get? path).getD Object.zero).Data
          + len item.Data > (m.Set path item).2.memoryLimit := by
        rw [e1]
        simp only [hsome, Option.getD_some]
        omega
      rw [Set_eq_stored (m.Set path item).2 path item h2 ht2, e1]
      simp only [hsome, Option.getD_some, GoMap.set_set]
      simp

/-! ## Claims, continued -/

/-- C19: for every cache state reached from `NewMemoryCache(memoryLimit, objectLimit)` by
`Set`, `Del` and `trim` operations, with `objectLimit` 0 or at least `len(item.Data)`, and
every object `item` with `len(item.Data) > memoryLimit`, after `Set(path, item)` the map
holds exactly the one entry `path -> item` and `memoryUsage = len(item.Data)`, which is
greater than `memoryLimit`. -/
theorem Set_over_budget_still_stored (memoryLimit objectLimit : Int) (ops : List MemOp)
    (path : GoString) (item : Object)
    (hobj : objectLimit = 0 ∨ len item.Data ≤ objectLimit)
    (hbig : memoryLimit < len item.Data) :
    ((runOps (NewMemoryCache memoryLimit objectLimit) ops).Set path item).2.object.entries
        = [(path, item)]
      ∧ ((runOps (NewMemoryCache memoryLimit objectLimit) ops).Set path item).2.memoryUsage
        = len item.Data
      ∧ ((runOps (NewMemoryCache memoryLimit objectLimit) ops).Set path item).2.memoryLimit
        < ((runOps (NewMemoryCache memoryLimit objectLimit) ops).Set path item).2.memoryUsage
      := by
  have hinv := UsageInv_runOps ops _ (UsageInv_new memoryLimit objectLimit)
  obtain ⟨hl1, hl2⟩ := runOps_limits ops (NewMemoryCache memoryLimit objectLimit)
  have hl1b : (runOps (NewMemoryCache memoryLimit objectLimit) ops).memoryLimit = memoryLimit :=
    hl1
  have hl2b : (runOps (NewMemoryCache memoryLimit objectLimit) ops).objectLimit = objectLimit :=
    hl2
  obtain ⟨h1, h2⟩ := Set_over_budget (runOps (NewMemoryCache memoryLimit objectLimit) ops) path
    item hinv (by rw [hl2b]; exact hobj) (by rw [hl1b]; exact hbig)
  refine ⟨h1, h2, ?_⟩
  rw [h2, Set_memoryLimit, hl1b]
  exact hbig

/-- Witness of C19: limit 4; after two small objects an object of 5 bytes is set. -/
theorem Set_over_budget_still_stored_witness :
    (((0 : Int) = 0 ∨ len (zeroBytes 5).Data ≤ 0) ∧ (4 : Int) < len (zeroBytes 5).Data)
      ∧ ((runOps (NewMemoryCache 4 0)
            [MemOp.set (lit "a") (zeroBytes 1), MemOp.set (lit "b") (zeroBytes 2)]).Set
            (lit "c") (zeroBytes 5)).2.object.entries = [(lit "c", zeroBytes 5)] :=
  ⟨by decide,
    (Set_over_budget_still_stored 4 0
      [MemOp.set (lit "a") (zeroBytes 1), MemOp.set (lit "b") (zeroBytes 2)] (lit "c")
      (zeroBytes 5) (by decide) (by decide)).1⟩

/-- C20: for every state (with or without the usage invariant), every path and every object,
`Set(path, item)` twice in a row gives the same result and leaves the same state, map and
`memoryUsage` included, as `Set(path, item)` once. -/
theorem Set_idempotent (m : MemoryCache) (path : GoString) (item : Object) :
    (m.Set path item).2.Set path item = m.Set path item
      ∧ ((m.Set path item).2.Set path item).2.object.entries
          = (m.Set path item).2.object.entries
      ∧ ((m.Set path item).2.Set path item).2.memoryUsage = (m.Set path item).2.memoryUsage := by
  have h := Set_Set m path item
  exact ⟨h, by rw [h], by rw [h]⟩

/-- C18: for every disk cache and key whose path `path.Join(baseDir, key)` is not in the
existence index, `Get` does not look at the file system: with a non-nil filler it is
exactly `filler.Fill(d, key)` on the unchanged cache, whatever the files are, and with a nil
filler it returns the same pair on every file system, a non-nil error, and leaves the cache
as it is. -/
theorem DiskCache_index_miss_short_circuits {τ : Type} (join : GoString → GoString → GoString)
    (c : DiskCache) (key : GoString) (w : τ)
    (h : c.fileList.get? (join c.baseDir key) = none) :
    (∀ (f : Filler Disk τ) (fs : FileSystem),
        DiskCache.Get join ⟨c, fs⟩ key (some f) w = f.Fill w ⟨c, fs⟩ key)
      ∧ (∀ fs1 fs2 : FileSystem,
          (DiskCache.Get join ⟨c, fs1⟩ key (none : Option (Filler Disk τ)) w).1
            = (DiskCache.Get join ⟨c, fs2⟩ key (none : Option (Filler Disk τ)) w).1)
      ∧ (∀ fs : FileSystem,
          (∃ e, (DiskCache.Get join ⟨c, fs⟩ key (none : Option (Filler Disk τ)) w).1.2 = some e)
            ∧ (DiskCache.Get join ⟨c, fs⟩ key (none : Option (Filler Disk τ)) w).2
              = (⟨c, fs⟩, w)) := by
  refine ⟨fun f fs => ?_, fun fs1 fs2 => ?_, fun fs => ?_⟩
  · unfold DiskCache.Get
    simp only [h]
    rfl
  · unfold DiskCache.Get
    simp only [h]
    rfl
  · unfold DiskCache.Get
    simp only [h]
    exact ⟨⟨_, rfl⟩, rfl⟩

/-- Witness of C18: the key "abc" is not in the index of an empty disk cache; `Get` gives
the same miss whether every file exists or none. -/
theorem DiskCache_index_miss_short_circuits_witness :
    (GoMap.make : GoMap Int).get? (slashJoin (lit "cache") (lit "abc")) = none
      ∧ (DiskCache.Get slashJoin ⟨⟨lit "cache", GoMap.make⟩, fullFileSystem⟩ (lit "abc")
            (none : Option (Filler Disk Unit)) ()).1
          = (DiskCache.Get slashJoin ⟨⟨lit "cache", GoMap.make⟩, emptyFileSystem⟩ (lit "abc")
            (none : Option (Filler Disk Unit)) ()).1 :=
  ⟨rfl, (DiskCache_index_miss_short_circuits slashJoin ⟨lit "cache", GoMap.make⟩ (lit "abc") ()
    rfl).2.1 fullFileSystem emptyFileSystem⟩

/-! ## Lemmas on `DiskCache.Del` and `CompressAndSet` -/

theorem foldl_delMatch_get? (os : FileOps) (k : GoString) (ms : List GoString) :
    ∀ d : Disk, (ms.foldl (DiskCache.delMatch os) d).cache.fileList.get? k
      = if k ∈ ms then none else d.cache.fileList.get? k := by
  induction ms with
  | nil => intro d; simp
  | cons x xs ih =>
    intro d
    simp only [List.foldl_cons, ih, List.mem_cons]
    by_cases hk : k ∈ xs
    · simp [hk]
    · simp only [hk, if_false, or_false, DiskCache.delMatch, GoMap.get?_delete]

/-- When the joined path is not "*", `Del` keeps every index entry that the glob does not
match. -/
theorem DiskCache.Del_keeps_unmatched (join : GoString → GoString → GoString) (os : FileOps)
    (d : Disk) (pathStr k : GoString) (ms : List GoString)
    (hjoin : join d.cache.baseDir pathStr ≠ lit "*")
    (hglob : os.Glob d.fs (join d.cache.baseDir pathStr) = .ok ms) (hk : k ∉ ms) :
    (DiskCache.Del join os d pathStr).cache.fileList.get? k = d.cache.fileList.get? k := by
  unfold DiskCache.Del
  simp only [hglob, if_neg hjoin, foldl_delMatch_get?, if_neg hk]

/-- When the joined path is "*" and the glob succeeds, `Del` leaves an empty index. -/
theorem DiskCache.Del_resets (join : GoString → GoString → GoString) (os : FileOps)
    (d : Disk) (pathStr k : GoString) (ms : List GoString)
    (hjoin : join d.cache.baseDir pathStr = lit "*")
    (hglob : os.Glob d.fs (join d.cache.baseDir pathStr) = .ok ms) :
    (DiskCache.Del join os d pathStr).cache.fileList.get? k = none := by
  unfold DiskCache.Del
  simp only [hglob, if_pos hjoin, foldl_delMatch_get?]
  split_ifs <;> rfl

theorem CompressAndSet_first_ok {C : Type} (ops : Cache C) (gz : Gzip) (cache : C)
    (path : GoString) (data : List UInt8) (modTime : Int)
    (h1 : gz.NewWriterLevel = none) (h2 : (gz.Write data).2 = none)
    (h3 : (ops.Set cache (if strings.HasSuffix path (lit ".gz") then path
      else path ++ lit ".gz") ⟨(gz.Write data).1, modTime⟩).1 = none) :
    CompressAndSet ops gz cache path data modTime
      = ((⟨data, modTime⟩, ⟨(gz.Write data).1, modTime⟩,
          (ops.Set (ops.Set cache (if strings.HasSuffix path (lit ".gz") then path
              else path ++ lit ".gz") ⟨(gz.Write data).1, modTime⟩).2
            (if strings.HasSuffix path (lit ".gz") then path.take (path.length - 3) else path)
            ⟨data, modTime⟩).1),
        (ops.Set (ops.Set cache (if strings.HasSuffix path (lit ".gz") then path
            else path ++ lit ".gz") ⟨(gz.Write data).1, modTime⟩).2
          (if strings.HasSuffix path (lit ".gz") then path.take (path.length - 3) else path)
          ⟨data, modTime⟩).2) := by
  unfold CompressAndSet
  simp only [h1, h2, h3]

theorem CompressAndSet_first_fail {C : Type} (ops : Cache C) (gz : Gzip) (cache : C)
    (path : GoString) (data : List UInt8) (modTime : Int) (e : GoError)
    (h1 : gz.NewWriterLevel = none) (h2 : (gz.Write data).2 = none)
    (h3 : (ops.Set cache (if strings.HasSuffix path (lit ".gz") then path
      else path ++ lit ".gz") ⟨(gz.Write data).1, modTime⟩).1 = some e) :
    CompressAndSet ops gz cache path data modTime
      = ((Object.zero, Object.zero, some e),
        (ops.Set cache (if strings.HasSuffix path (lit ".gz") then path
          else path ++ lit ".gz") ⟨(gz.Write data).1, modTime⟩).2) := by
  unfold CompressAndSet
  simp only [h1, h2, h3]

/-- When `CompressAndSet` returns a nil error, gzip has not failed. -/
theorem CompressAndSet_nil_gzip {C : Type} (ops : Cache C) (gz : Gzip) (cache : C)
    (path : GoString) (data : List UInt8) (modTime : Int)
    (h : (CompressAndSet ops gz cache path data modTime).1.2.2 = none) :
    gz.NewWriterLevel = none ∧ (gz.Write data).2 = none := by
  unfold CompressAndSet at h
  cases h1 : gz.NewWriterLevel with
  | some e => simp [h1] at h
  | none =>
    cases h2 : (gz.Write data).2 with
    | some e => simp [h1, h2] at h
    | none => exact ⟨rfl, rfl⟩

theorem gz_key_eq (path : GoString) (h : strings.HasSuffix path (lit ".gz") = true) :
    path.take (path.length - 3) ++ lit ".gz" = path := by
  unfold strings.HasSuffix at h
  obtain ⟨t, ht⟩ := List.isSuffixOf_iff_suffix.1 h
  have h3 : (lit ".gz").length = 3 := by decide
  rw [← ht]
  simp [h3]

/-- C15, the claim as stated fails: on a disk cache whose `Set` fails for the key "a.gz"
(the file cannot be written) and would succeed for "a", putting "cache/a" in the index,
`CompressAndSet(cache, "a", data, modTime)` never leaves "cache/a" in the index, whatever
gzip gives: after the failed `Set` of the compressed form the `Set` of the uncompressed form
is not performed. -/
theorem CompressAndSet_stops_after_failed_Set :
    ((DiskCache.asCache slashJoin gzBlockedFileOps).Set emptyDisk (lit "a")
        ⟨[1], 0⟩).2.cache.fileList.get? (lit "cache/a") = some 1
      ∧ ¬ ∃ gz : Gzip, gz.NewWriterLevel = none ∧ (gz.Write [1]).2 = none
          ∧ (CompressAndSet (DiskCache.asCache slashJoin gzBlockedFileOps) gz emptyDisk
              (lit "a") [1] 0).2.cache.fileList.get? (lit "cache/a") ≠ none := by
  refine ⟨by decide, ?_⟩
  rintro ⟨gz, h1, h2, h3⟩
  apply h3
  rw [CompressAndSet_first_fail (DiskCache.asCache slashJoin gzBlockedFileOps) gz emptyDisk
    (lit "a") [1] 0 (errors.New (lit "Could not write file " ++ lit "cache/a.gz" ++ lit ": "
      ++ lit "is a directory")) h1 h2 rfl]
  rfl

/-- C15, amended: for every cache, path, data and modTime, with gzip treated as a function
(its calls do not fail), let `uKey` be `path` without its last 3 characters and `cKey` be
`path` if `path` ends in ".gz", and `uKey = path`, `cKey = path + ".gz"` otherwise; then
`cKey = uKey + ".gz"`.  `CompressAndSet` performs `cache.Set(cKey, {gz(data), modTime})`; if
that returns nil it then performs `cache.Set(uKey, {data, modTime})` and returns both
objects with the error of the second `Set`, which is `({data, modTime}, {gz(data), modTime},
nil)` when both succeed; if the first `Set` fails it returns its error with two empty
objects and performs no second `Set`. -/
theorem CompressAndSet_keys_and_writes {C : Type} (ops : Cache C) (gz : Gzip) (cache : C)
    (path : GoString) (data : List UInt8) (modTime : Int)
    (h1 : gz.NewWriterLevel = none) (h2 : (gz.Write data).2 = none) :
    let uKey : GoString :=
      if strings.HasSuffix path (lit ".gz") then path.take (path.length - 3) else path
    let cKey : GoString := if strings.HasSuffix path (lit ".gz") then path else path ++ lit ".gz"
    let u : Object := ⟨data, modTime⟩
    let c : Object := ⟨(gz.Write data).1, modTime⟩
    cKey = uKey ++ lit ".gz"
      ∧ ((ops.Set cache cKey c).1 = none →
          CompressAndSet ops gz cache path data modTime
            = ((u, c, (ops.Set (ops.Set cache cKey c).2 uKey u).1),
                (ops.Set (ops.Set cache cKey c).2 uKey u).2))
      ∧ ((ops.Set cache cKey c).1 = none → (ops.Set (ops.Set cache cKey c).2 uKey u).1 = none →
          (CompressAndSet ops gz cache path data modTime).1 = (u, c, none))
      ∧ (∀ e, (ops.Set cache cKey c).1 = some e →
          CompressAndSet ops gz cache path data modTime
            = ((Object.zero, Object.zero, some e), (ops.Set cache cKey c).2)) := by
  intro uKey cKey u c
  refine ⟨?_, fun h3 => ?_, fun h3 h4 => ?_, fun e h3 => ?_⟩
  · show (if strings.HasSuffix path (lit ".gz") then path else path ++ lit ".gz")
      = (if strings.HasSuffix path (lit ".gz") then path.take (path.length - 3) else path)
        ++ lit ".gz"
    by_cases hs : strings.HasSuffix path (lit ".gz") = true
    · rw [if_pos hs, if_pos hs, gz_key_eq path hs]
    · rw [if_neg hs, if_neg hs]
  · exact CompressAndSet_first_ok ops gz cache path data modTime h1 h2 h3
  · rw [CompressAndSet_first_ok ops gz cache path data modTime h1 h2 h3]
    show (u, c, (ops.Set (ops.Set cache cKey c).2 uKey u).1) = (u, c, none)
    rw [h4]
  · exact CompressAndSet_first_fail ops gz cache path data modTime e h1 h2 h3

/-- Witness of C15 as amended: on a memory cache both objects are stored under "a.gz" and
"a" and returned. -/
theorem CompressAndSet_keys_and_writes_witness :
    (headerGzip.NewWriterLevel = none ∧ (headerGzip.Write [1]).2 = none)
      ∧ (CompressAndSet MemoryCache.asCache headerGzip (NewMemoryCache 100 0) (lit "a") [1]
          5).1 = (⟨[1], 5⟩, ⟨[31, 139, 1], 5⟩, none) :=
  ⟨⟨rfl, rfl⟩,
    (CompressAndSet_keys_and_writes MemoryCache.asCache headerGzip (NewMemoryCache 100 0)
      (lit "a") [1] 5 rfl rfl).2.2.1 rfl rfl⟩

/-- C17, the code at the failing input: the base directory is "cache" and the index holds the
nested file "cache/sub/file"; the glob "cache/*" matches the directory "cache/sub".  After
`Del("*")` the index still holds "cache/sub/file": the joined path "cache/*" is not "*", so
the index is not reset, and the match "cache/sub" is not a key of the index. -/
theorem DiskCache_Del_star_keeps_nested_entry :
    slashJoin nestedDisk.cache.baseDir (lit "*") = lit "cache/*"
      ∧ (DiskCache.Del slashJoin subdirFileOps nestedDisk (lit "*")).cache.fileList.get?
          (lit "cache/sub/file") = some 3 := by
  decide

/-! ## `CompressAndSet` on a memory cache -/

theorem CompressAndSet_memory (gz : Gzip) (m : MemoryCache) (path : GoString)
    (data : List UInt8) (modTime : Int)
    (h1 : gz.NewWriterLevel = none) (h2 : (gz.Write data).2 = none)
    (hgz : strings.HasSuffix path (lit ".gz") = false) :
    CompressAndSet MemoryCache.asCache gz m path data modTime
      = ((⟨data, modTime⟩, ⟨(gz.Write data).1, modTime⟩, none),
          ((m.Set (path ++ lit ".gz") ⟨(gz.Write data).1, modTime⟩).2.Set path
            ⟨data, modTime⟩).2) := by
  rw [CompressAndSet_first_ok MemoryCache.asCache gz m path data modTime h1 h2 rfl]
  simp only [hgz, Bool.false_eq_true, if_false]
  rfl

theorem append_gz_ne (path : GoString) : path ++ lit ".gz" ≠ path := by
  intro h
  have := congrArg List.length h
  have h3 : (lit ".gz").length = 3 := by decide
  rw [List.length_append, h3] at this
  omega

/-- C16, the claim as stated fails: on the cache `NewMemoryCache(4, 0)` with the path "a" and
five bytes of data, whatever gzip gives, `CompressAndSet` does not both return a nil error and
leave the compressed form readable under "a.gz": the `Set` of the five bytes runs the trim,
which drops the compressed form stored just before. -/
theorem CompressAndSet_trim_drops_compressed :
    ¬ ∃ gz : Gzip,
        (CompressAndSet MemoryCache.asCache gz (NewMemoryCache 4 0) (lit "a")
            [1, 2, 3, 4, 5] 0).1.2.2 = none
          ∧ ((CompressAndSet MemoryCache.asCache gz (NewMemoryCache 4 0) (lit "a")
                [1, 2, 3, 4, 5] 0).2.Get (lit "a.gz")
                (none : Option (Filler MemoryCache Unit)) ()).1
              = ((CompressAndSet MemoryCache.asCache gz (NewMemoryCache 4 0) (lit "a")
                [1, 2, 3, 4, 5] 0).1.2.1, none) := by
  rintro ⟨gz, hret, hget⟩
  obtain ⟨h1, h2⟩ := CompressAndSet_nil_gzip _ gz _ _ _ _ hret
  rw [CompressAndSet_memory gz (NewMemoryCache 4 0) (lit "a") [1, 2, 3, 4, 5] 0 h1 h2
    (by decide)] at hget
  have hlim : ∀ (m : MemoryCache) (o : Object), m.objectLimit = 0 →
      ¬ (m.objectLimit ≠ 0 ∧ len o.Data > m.objectLimit) := fun m o h0 h => h.1 h0
  -- the state after the first `Set`
  have hm1 : ((NewMemoryCache 4 0).Set (lit "a" ++ lit ".gz")
        ⟨(gz.Write [1, 2, 3, 4, 5]).1, 0⟩).2.object
        = GoMap.make.set (lit "a" ++ lit ".gz") ⟨(gz.Write [1, 2, 3, 4, 5]).1, 0⟩
      ∧ ((NewMemoryCache 4 0).Set (lit "a" ++ lit ".gz")
        ⟨(gz.Write [1, 2, 3, 4, 5]).1, 0⟩).2.memoryUsage
        = len (gz.Write [1, 2, 3, 4, 5]).1 := by
    by_cases ht : (NewMemoryCache 4 0).trims (lit "a" ++ lit ".gz")
        ⟨(gz.Write [1, 2, 3, 4, 5]).1, 0⟩
    · exact Set_trimmed _ _ _ (hlim _ _ rfl) ht
    · obtain ⟨e1, e2⟩ := Set_stored _ _ _ (hlim _ _ rfl) ht
      refine ⟨e1, ?_⟩
      rw [e2]
      simp [NewMemoryCache, GoMap.get?_make, Object.zero, len]
  have hnone : ((NewMemoryCache 4 0).Set (lit "a" ++ lit ".gz")
      ⟨(gz.Write [1, 2, 3, 4, 5]).1, 0⟩).2.object.get? (lit "a") = none := by
    rw [hm1.1, GoMap.get?_set, if_neg (by decide)]
    rfl
  have hc := len_nonneg (gz.Write [1, 2, 3, 4, 5]).1
  have ht2 : ((NewMemoryCache 4 0).Set (lit "a" ++ lit ".gz")
      ⟨(gz.Write [1, 2, 3, 4, 5]).1, 0⟩).2.trims (lit "a") ⟨[1, 2, 3, 4, 5], 0⟩ := by
    unfold MemoryCache.trims
    rw [hnone, hm1.2, Set_memoryLimit]
    simp only [Option.getD_none, Object.zero, len, List.length_nil, NewMemoryCache]
    simp only [len] at hc
    simp
    omega
  obtain ⟨e3, _⟩ := Set_trimmed _ (lit "a") ⟨[1, 2, 3, 4, 5], 0⟩
    (hlim _ _ (by rw [Set_objectLimit]; rfl)) ht2
  have hmiss : (((NewMemoryCache 4 0).Set (lit "a" ++ lit ".gz")
      ⟨(gz.Write [1, 2, 3, 4, 5]).1, 0⟩).2.Set (lit "a")
      ⟨[1, 2, 3, 4, 5], 0⟩).2.object.get? (lit "a.gz") = none := by
    rw [e3, GoMap.get?_set, if_neg (by decide)]
    rfl
  rw [Get_nil_of_none _ _ () hmiss] at hget
  simp at hget

/-- C16, amended: for every `MemoryCache` with no per-object ceiling, every path that does
not end in ".gz", every data and modTime such that the `Set` of the uncompressed form does
not run the trim (after the compressed form is stored, the usage less the old entry of
`path` plus `len(data)` is within the memory limit): after `CompressAndSet` returns
`(u, c, nil)`, `Get(path, nil)` returns `u`, whose `Data` is `data`, and
`Get(path + ".gz", nil)` returns `c`, the compressed form, both with a nil error. -/
theorem CompressAndSet_populates_both (gz : Gzip) (m : MemoryCache) (path : GoString)
    (data : List UInt8) (modTime : Int)
    (hlim : m.objectLimit = 0)
    (hgz : strings.HasSuffix path (lit ".gz") = false)
    (hret : (CompressAndSet MemoryCache.asCache gz m path data modTime).1.2.2 = none)
    (hfit : ¬ (m.Set (path ++ lit ".gz") ⟨(gz.Write data).1, modTime⟩).2.trims path
      ⟨data, modTime⟩) :
    ((CompressAndSet MemoryCache.asCache gz m path data modTime).2.Get path
          (none : Option (Filler MemoryCache Unit)) ()).1
        = ((CompressAndSet MemoryCache.asCache gz m path data modTime).1.1, none)
      ∧ (CompressAndSet MemoryCache.asCache gz m path data modTime).1.1 = ⟨data, modTime⟩
      ∧ ((CompressAndSet MemoryCache.asCache gz m path data modTime).2.Get (path ++ lit ".gz")
          (none : Option (Filler MemoryCache Unit)) ()).1
        = ((CompressAndSet MemoryCache.asCache gz m path data modTime).1.2.1, none)
      ∧ (CompressAndSet MemoryCache.asCache gz m path data modTime).1.2.1
        = ⟨(gz.Write data).1, modTime⟩ := by
  obtain ⟨h1, h2⟩ := CompressAndSet_nil_gzip _ gz _ _ _ _ hret
  rw [CompressAndSet_memory gz m path data modTime h1 h2 hgz]
  have hl1 : ¬ (m.objectLimit ≠ 0 ∧ len (gz.Write data).1 > m.objectLimit) :=
    fun h => h.1 hlim
  have hc : (m.Set (path ++ lit ".gz") ⟨(gz.Write data).1, modTime⟩).2.object.get?
      (path ++ lit ".gz") = some ⟨(gz.Write data).1, modTime⟩ :=
    Set_get?_self m _ _ hl1
  have hl2 : ¬ ((m.Set (path ++ lit ".gz") ⟨(gz.Write data).1, modTime⟩).2.objectLimit ≠ 0
      ∧ len data > (m.Set (path ++ lit ".gz") ⟨(gz.Write data).1, modTime⟩).2.objectLimit) :=
    fun h => h.1 (by rw [Set_objectLimit]; exact hlim)
  obtain ⟨e1, _⟩ := Set_stored _ path ⟨data, modTime⟩ hl2 hfit
  have hu : ((m.Set (path ++ lit ".gz") ⟨(gz.Write data).1, modTime⟩).2.Set path
      ⟨data, modTime⟩).2.object.get? path = some ⟨data, modTime⟩ := by
    rw [e1, GoMap.get?_set, if_pos rfl]
  have hc2 : ((m.Set (path ++ lit ".gz") ⟨(gz.Write data).1, modTime⟩).2.Set path
      ⟨data, modTime⟩).2.object.get? (path ++ lit ".gz")
      = some ⟨(gz.Write data).1, modTime⟩ := by
    rw [e1, GoMap.get?_set, if_neg (append_gz_ne path), hc]
  refine ⟨?_, rfl, ?_, rfl⟩
  · rw [Get_nil_of_some _ path _ () hu]
  · rw [Get_nil_of_some _ _ _ () hc2]

/-- Witness of C16 as amended: a cache with limit 100; both forms are read back. -/
theorem CompressAndSet_populates_both_witness :
    ((NewMemoryCache 100 0).objectLimit = 0
        ∧ strings.HasSuffix (lit "a") (lit ".gz") = false
        ∧ (CompressAndSet MemoryCache.asCache headerGzip (NewMemoryCache 100 0) (lit "a") [1]
            5).1.2.2 = none)
      ∧ ((CompressAndSet MemoryCache.asCache headerGzip (NewMemoryCache 100 0) (lit "a") [1]
            5).2.Get (lit "a" ++ lit ".gz") (none : Option (Filler MemoryCache Unit)) ()).1
          = ((CompressAndSet MemoryCache.asCache headerGzip (NewMemoryCache 100 0) (lit "a") [1]
            5).1.2.1, none) :=
  ⟨by decide,
    (CompressAndSet_populates_both headerGzip (NewMemoryCache 100 0) (lit "a") [1] 5 rfl
      (by decide) (by decide) (by unfold MemoryCache.trims; decide)).2.2.1⟩

end Gocache
